import Mathlib

/-!
Verification of the side-by-side diff renderer (`src/iterSideBySideDiffs.ts`).

Strings of the JavaScript source are modelled as `List Char` (one element per
code unit); the JavaScript string operations used by the source (`slice`,
`padStart`, `padEnd`, `startsWith`, `indexOf`, `split`, `parseInt`) are given
faithful models below.  JavaScript numbers that can become `NaN` (the parsed
hunk starts, hence the running line counters) are modelled as `Option Int`
with `none` playing the role of `NaN`.  The async generator returned by
`iterSideBySideDiff` is modelled as a pure function from the list of input
lines to `Except e (List Str)`: a thrown `AssertionError`/`TypeError` aborts
the stream and is modelled by the `Except.error` case.
-/

/-- JavaScript strings, modelled as lists of characters. -/
abbrev Str := List Char

/-- The character lists produced by one run. -/
abbrev Lines := List Str

/-- JavaScript number that may be `NaN` (`none` is `NaN`). -/
abbrev JSNum := Option Int

/-- `n + 1` on a JavaScript number; `NaN + 1` is `NaN`. -/
def jsInc (n : JSNum) : JSNum := n.map (fun v => v + 1)

/-- Decimal digit character for `d < 10`. -/
def digitChar (d : Nat) : Char := Char.ofNat (48 + d)

/-- Decimal digits of a natural number, most significant first; fuel-based so
that it is structurally recursive (the fuel `n` itself always suffices). -/
def natDigitsAux : Nat → Nat → List Char
  | 0, n => [digitChar (n % 10)]
  | fuel + 1, n => if n < 10 then [digitChar n] else natDigitsAux fuel (n / 10) ++ [digitChar (n % 10)]

/-- Decimal digits of a natural number, most significant first. -/
def natDigits (n : Nat) : List Char := natDigitsAux n n

/-- Decimal rendering of an integer, as JavaScript `Number.prototype.toString`
produces for integral values. -/
def intRepr (n : Int) : Str :=
  if n < 0 then '-' :: natDigits ((-n).toNat) else natDigits n.toNat

/-- JavaScript `toString` on a possibly-`NaN` number. -/
def jsNumToString (n : JSNum) : Str :=
  match n with
  | none => ['N', 'a', 'N']
  | some v => intRepr v

/-- JavaScript `padStart(n)` (pads with spaces, never truncates). -/
def jsPadStart (s : Str) (n : Nat) : Str := List.replicate (n - s.length) ' ' ++ s

/-- JavaScript `padStart(n, c)` with an explicit fill character. -/
def jsPadStartC (s : Str) (n : Nat) (c : Char) : Str := List.replicate (n - s.length) c ++ s

/-- JavaScript `padEnd(n)` where the target may be a (possibly negative)
integer; a non-positive target leaves the string unchanged. -/
def jsPadEnd (s : Str) (n : Int) : Str := s ++ List.replicate (n.toNat - s.length) ' '

/-- `n` spaces when `n > 0`, else empty — JavaScript `''.padEnd(n)`. -/
def jsSpaces (n : Int) : Str := List.replicate n.toNat ' '

/-- JavaScript `slice(0, w)` for an integer `w`: a negative end counts from the
end of the string. -/
def jsSliceTo (s : Str) (w : Int) : Str :=
  if w < 0 then s.take ((s.length + w).toNat) else s.take w.toNat

/-- JavaScript `slice(a, b)` for natural bounds (as used by the source on hunk
headers); an empty string results when `a ≥ b`. -/
def jsSliceNat (s : Str) (a b : Nat) : Str := (s.take b).drop a

/-- The part of a line before its first space — `line.split(' ', 1)[0]`. -/
def jsFirstWord (s : Str) : Str := s.takeWhile (fun c => c ≠ ' ')

/-- JavaScript `split(c)` for a single-character separator: full split, with
empty segments preserved (`"".split(c)` is `[""]`). -/
def splitChar (c : Char) : Str → List Str
  | [] => [[]]
  | x :: xs =>
    if x = c then [] :: splitChar c xs
    else
      match splitChar c xs with
      | [] => [[x]]
      | h :: t => (x :: h) :: t

/-- First element of a split (never needed on the empty list, defaulting to
the empty string keeps the function total). -/
def headD (l : List Str) : Str :=
  match l with
  | [] => []
  | h :: _ => h

/-- Auxiliary search: least absolute index `≥ i` at which `pat` is a prefix of
the remaining suffix, scanning the suffix `s`. -/
def indexOfAux (pat : Str) : Str → Nat → Option Nat
  | [], i => if pat = [] then some i else none
  | x :: xs, i => if pat.isPrefixOf (x :: xs) then some i else indexOfAux pat xs (i + 1)

/-- JavaScript `s.indexOf(pat, start)`: `-1` when absent. -/
def jsIndexOf (s : Str) (pat : Str) (start : Nat) : Int :=
  match indexOfAux pat (s.drop start) start with
  | some i => (i : Int)
  | none => -1

/-- Value of a list of decimal digit characters (as `parseInt` accumulates). -/
def digitsVal (l : Str) : Nat := l.foldl (fun acc c => 10 * acc + (c.toNat - 48)) 0

/-- Longest digit prefix of a string, `none` when there is none. -/
def parseDigitsPrefix (s : Str) : Option Nat :=
  let ds := s.takeWhile (fun c => c.isDigit)
  if ds.isEmpty then none else some (digitsVal ds)

/-- JavaScript `parseInt(s, 10)`: skips leading spaces, accepts an optional
sign, then reads the longest digit prefix; `NaN` (`none`) when no digit
follows. -/
def jsParseInt (s : Str) : JSNum :=
  let s1 := s.dropWhile (fun c => c = ' ')
  match s1 with
  | [] => none
  | c :: rest =>
    if c = '-' then (parseDigitsPrefix rest).map (fun n => -(n : Int))
    else if c = '+' then (parseDigitsPrefix rest).map (fun n => (n : Int))
    else (parseDigitsPrefix (c :: rest)).map (fun n => (n : Int))

/-- The configuration record destructured by `iterSideBySideDiff` (§3 of the
spec: all width fields are non-negative integers). -/
structure Config where
  SCREEN_WIDTH : Nat
  LINE_NUMBER_WIDTH : Nat
  LINE_PREFIX_WIDTH : Nat
  MIN_LINE_WIDTH : Nat
  WRAP_LINES : Bool
deriving DecidableEq

/-- A theme color: a pure string-to-string function (it wraps its argument in
escape sequences). -/
abbrev ThemeColor := Str → Str

/-- The theme record destructured by `iterSideBySideDiff`. -/
structure Theme where
  COMMIT_COLOR : ThemeColor
  COMMIT_SHA_COLOR : ThemeColor
  COMMIT_AUTHOR_COLOR : ThemeColor
  COMMIT_DATE_COLOR : ThemeColor
  BORDER_COLOR : ThemeColor
  FILE_NAME_COLOR : ThemeColor
  HUNK_HEADER_COLOR : ThemeColor
  DELETED_LINE_COLOR : ThemeColor
  DELETED_LINE_NO_COLOR : ThemeColor
  INSERTED_LINE_COLOR : ThemeColor
  INSERTED_LINE_NO_COLOR : ThemeColor
  UNMODIFIED_LINE_COLOR : ThemeColor
  UNMODIFIED_LINE_NO_COLOR : ThemeColor
  MISSING_LINE_COLOR : ThemeColor

/-- The theme in which every color function is the identity.  The visible
width of a line "excluding color escape sequences" is its length under this
theme, since a real color function only wraps its argument in escapes. -/
def plainTheme : Theme where
  COMMIT_COLOR := id
  COMMIT_SHA_COLOR := id
  COMMIT_AUTHOR_COLOR := id
  COMMIT_DATE_COLOR := id
  BORDER_COLOR := id
  FILE_NAME_COLOR := id
  HUNK_HEADER_COLOR := id
  DELETED_LINE_COLOR := id
  DELETED_LINE_NO_COLOR := id
  INSERTED_LINE_COLOR := id
  INSERTED_LINE_NO_COLOR := id
  UNMODIFIED_LINE_COLOR := id
  UNMODIFIED_LINE_NO_COLOR := id
  MISSING_LINE_COLOR := id

/-- `const LINE_WIDTH = Math.max(Math.floor(SCREEN_WIDTH / 2), MIN_LINE_WIDTH)`. -/
def LINE_WIDTH (cfg : Config) : Nat := max (cfg.SCREEN_WIDTH / 2) cfg.MIN_LINE_WIDTH

/-- `const LINE_TEXT_WIDTH = Math.max(LINE_WIDTH - 1 - LINE_PREFIX_WIDTH - 1 -
LINE_NUMBER_WIDTH)`.  `Math.max` is applied to a single argument in the
source, so it returns that argument unchanged — there is no clamping and the
result can be negative, hence the `Int` codomain. -/
def LINE_TEXT_WIDTH (cfg : Config) : Int :=
  (LINE_WIDTH cfg : Int) - 1 - cfg.LINE_PREFIX_WIDTH - 1 - cfg.LINE_NUMBER_WIDTH

/-- `const BLANK_LINE = ''.padStart(LINE_WIDTH)`. -/
def BLANK_LINE (cfg : Config) : Str := List.replicate (LINE_WIDTH cfg) ' '

/-- `const HORIZONTAL_SEPARATOR = BORDER_COLOR(''.padStart(SCREEN_WIDTH, '─'))`. -/
def HORIZONTAL_SEPARATOR (cfg : Config) (th : Theme) : Str :=
  th.BORDER_COLOR (List.replicate cfg.SCREEN_WIDTH '─')

/-- Modelled from the spec: the source file `src/wrapLineByWord.ts` is not
included under `src/`.  Per §4.5 of the spec, with wrapping enabled a line is
broken at word boundaries into segments each at most `width` characters, and
a single token longer than `width` is hard-split at the width boundary.
Hard-splitting of one oversized token. -/
def hardChunks (w : Nat) (s : Str) : List Str :=
  if _h : w = 0 ∨ s.length ≤ w then [s]
  else s.take w :: hardChunks w (s.drop w)
termination_by s.length
decreasing_by
  simp only [List.length_drop]
  omega

/-- Modelled from the spec: one step of greedy word filling (accumulated
segments, current segment) against the next word. -/
def wrapStep (w : Nat) (acc : List Str × Str) (word : Str) : List Str × Str :=
  let done := acc.1
  let cur := acc.2
  let candidate := if cur.isEmpty then word else cur ++ ' ' :: word
  if candidate.length ≤ w then (done, candidate)
  else if word.length ≤ w then (done ++ [cur], word)
  else (done ++ [cur] ++ (hardChunks w word).dropLast, ((hardChunks w word).getLast?).getD [])

/-- Modelled from the spec (§4.5): `wrapLineByWord` from the missing source
file `src/wrapLineByWord.ts` — greedy word wrap at `width`, oversized tokens
hard-split. -/
def wrapLineByWord (text : Str) (width : Int) : List Str :=
  let w := width.toNat
  if w = 0 then [text]
  else
    let r := (splitChar ' ' text).foldl (wrapStep w) ([], [])
    r.1 ++ [r.2]

/-- `fitTextToWidth`: wraps (per the config) or truncates (`slice(0, width)`)
the given text. -/
def fitTextToWidth (cfg : Config) (text : Str) (width : Int) : List Str :=
  if cfg.WRAP_LINES then wrapLineByWord text width else [jsSliceTo text width]

/-- `formatCommitLine`. -/
def formatCommitLine (cfg : Config) (th : Theme) (line : Str) : Str :=
  let label := jsFirstWord line
  if label = ("commit").toList then
    th.COMMIT_COLOR (label ++ ' ' :: th.COMMIT_SHA_COLOR (line.drop (label.length + 1)) ++
      jsSpaces ((cfg.SCREEN_WIDTH : Int) - line.length))
  else if label = ("Author:").toList then
    th.COMMIT_COLOR (label ++ ' ' :: th.COMMIT_AUTHOR_COLOR (line.drop (label.length + 1)) ++
      jsSpaces ((cfg.SCREEN_WIDTH : Int) - line.length))
  else if label = ("Date:").toList then
    th.COMMIT_COLOR (label ++ ' ' :: th.COMMIT_DATE_COLOR (line.drop (label.length + 1)) ++
      jsSpaces ((cfg.SCREEN_WIDTH : Int) - line.length))
  else th.COMMIT_COLOR (jsPadEnd line (cfg.SCREEN_WIDTH : Int))

/-- `formatFileName`: the three banner lines (top separator, body, bottom
separator) yielded for a `(fileNameA, fileNameB)` pair. -/
def formatFileName (cfg : Config) (th : Theme) (fileNameA fileNameB : Str) : Lines :=
  let body :=
    if fileNameA.isEmpty then
      th.FILE_NAME_COLOR [' '] ++ th.INSERTED_LINE_COLOR ['■', '■'] ++
        th.FILE_NAME_COLOR (' ' :: jsPadEnd fileNameB ((cfg.SCREEN_WIDTH : Int) - 2 - 2))
    else if fileNameB.isEmpty then
      th.FILE_NAME_COLOR [' '] ++ th.DELETED_LINE_COLOR ['■', '■'] ++
        th.FILE_NAME_COLOR (' ' :: jsPadEnd fileNameA ((cfg.SCREEN_WIDTH : Int) - 2 - 2))
    else if fileNameA = fileNameB then
      th.FILE_NAME_COLOR [' '] ++ (th.DELETED_LINE_COLOR ['■'] ++ th.INSERTED_LINE_COLOR ['■']) ++
        th.FILE_NAME_COLOR (' ' :: jsPadEnd fileNameA ((cfg.SCREEN_WIDTH : Int) - 2 - 2))
    else
      th.FILE_NAME_COLOR [' '] ++ (th.DELETED_LINE_COLOR ['■'] ++ th.INSERTED_LINE_COLOR ['■']) ++
        th.FILE_NAME_COLOR (' ' :: jsPadEnd
          (th.FILE_NAME_COLOR (fileNameA ++ (" -> ").toList ++ fileNameB))
          ((cfg.SCREEN_WIDTH : Int) - 2 - 2))
  [HORIZONTAL_SEPARATOR cfg th, body, HORIZONTAL_SEPARATOR cfg th]

/-- One side of a hunk row (`HunkLineHalf` minus the `null` case, which is
`Option.none` at use sites). -/
structure Half where
  number : Str
  linePrefix : Str
  text : Str
deriving DecidableEq

/-- `lineColorForLineHalf`. -/
def lineColorForLineHalf (th : Theme) (lineHalf : Option Half) : ThemeColor :=
  match lineHalf with
  | none => th.MISSING_LINE_COLOR
  | some h =>
    if h.linePrefix = ("-").toList then th.DELETED_LINE_COLOR
    else if h.linePrefix = ("+").toList then th.INSERTED_LINE_COLOR
    else th.UNMODIFIED_LINE_COLOR

/-- `lineNoColorForLineHalf`. -/
def lineNoColorForLineHalf (th : Theme) (lineHalf : Option Half) : ThemeColor :=
  match lineHalf with
  | none => th.MISSING_LINE_COLOR
  | some h =>
    if h.linePrefix = ("-").toList then th.DELETED_LINE_NO_COLOR
    else if h.linePrefix = ("+").toList then th.INSERTED_LINE_NO_COLOR
    else th.UNMODIFIED_LINE_NO_COLOR

/-- `formatHunkLineHalf`. -/
def formatHunkLineHalf (cfg : Config) (lineNo linePrefix lineText : Str)
    (lineColor lineNoColor : ThemeColor) : Str :=
  lineNoColor (jsPadStart lineNo cfg.LINE_NUMBER_WIDTH) ++
    lineColor (' ' :: jsPadStart linePrefix cfg.LINE_PREFIX_WIDTH) ++
    lineColor (' ' :: jsPadEnd lineText (LINE_TEXT_WIDTH cfg))

/-- Helper for `formatAndFitHunkLineHalf`: only the first produced segment
carries the line number and prefix. -/
def withFirstSegment (f : Bool → Str → Str) : List Str → List Str
  | [] => []
  | x :: xs => f true x :: xs.map (f false)

/-- `formatAndFitHunkLineHalf`. -/
def formatAndFitHunkLineHalf (cfg : Config) (lineHalf : Option Half)
    (lineColor lineNoColor : ThemeColor) : Lines :=
  let lineNo := (lineHalf.map Half.number).getD []
  let linePrefix := (lineHalf.map Half.linePrefix).getD []
  let lineText := (lineHalf.map Half.text).getD []
  withFirstSegment
    (fun isFirstLine text =>
      formatHunkLineHalf cfg (if isFirstLine then lineNo else [])
        (if isFirstLine then linePrefix else []) text lineColor lineNoColor)
    (fitTextToWidth cfg lineText (LINE_TEXT_WIDTH cfg))

/-- The zipping loop of `formatHunkLine`: pairs the two formatted segment
lists, padding the shorter side with its role-colored blank line. -/
def joinRows (blankA blankB : Str) : Lines → Lines → Lines
  | [], ys => ys.map (fun y => blankA ++ y)
  | x :: xs, ys =>
    match ys with
    | [] => (x ++ blankB) :: joinRows blankA blankB xs []
    | y :: ys2 => (x ++ y) :: joinRows blankA blankB xs ys2

/-- `formatHunkLine`. -/
def formatHunkLine (cfg : Config) (th : Theme) (lineHalfA lineHalfB : Option Half) : Lines :=
  let lineColorA := lineColorForLineHalf th lineHalfA
  let lineNoColorA := lineNoColorForLineHalf th lineHalfA
  let formattedLinesA := formatAndFitHunkLineHalf cfg lineHalfA lineColorA lineNoColorA
  let lineColorB := lineColorForLineHalf th lineHalfB
  let lineNoColorB := lineNoColorForLineHalf th lineHalfB
  let formattedLinesB := formatAndFitHunkLineHalf cfg lineHalfB lineColorB lineNoColorB
  joinRows (lineColorA (BLANK_LINE cfg)) (lineColorB (BLANK_LINE cfg))
    formattedLinesA formattedLinesB

/-- The half built by `flushHunkChange` for a consumed buffer line:
`{ number: lineNo.toString(), prefix: line.slice(0, 1), text: line.slice(1) }`. -/
def mkHalf (lineNo : JSNum) (line : Str) : Half :=
  { number := jsNumToString lineNo, linePrefix := line.take 1, text := line.drop 1 }

/-- Right-only remainder of the `flushHunkChange` loop (the left buffer is
exhausted); returns the rows and the updated right counter. -/
def flushRight (lineNoB : JSNum) : List Str → List (Option Half × Option Half) × JSNum
  | [] => ([], lineNoB)
  | b :: bs =>
    let r := flushRight (jsInc lineNoB) bs
    (((none : Option Half), some (mkHalf lineNoB b)) :: r.1, r.2)

/-- The pairing loop of `flushHunkChange`: walks both buffers in parallel,
consuming one line per side per row while the side is non-empty, and returns
the rows together with the updated running line counters. -/
def flushPairs : List Str → List Str → JSNum → JSNum →
    List (Option Half × Option Half) × JSNum × JSNum
  | [], linesB, lineNoA, lineNoB =>
    let r := flushRight lineNoB linesB
    (r.1, lineNoA, r.2)
  | a :: as, linesB, lineNoA, lineNoB =>
    match linesB with
    | [] =>
      let r := flushPairs as [] (jsInc lineNoA) lineNoB
      ((some (mkHalf lineNoA a), (none : Option Half)) :: r.1, r.2)
    | b :: bs =>
      let r := flushPairs as bs (jsInc lineNoA) (jsInc lineNoB)
      ((some (mkHalf lineNoA a), some (mkHalf lineNoB b)) :: r.1, r.2)

/-- The accumulation loop of `formatHunkSideBySide` over the hunk body lines,
expressed on rows (each row is later formatted by `formatHunkLine`; the source
interleaves formatting with accumulation, which concatenates to the same
sequence).  Deletion lines are pushed onto the A buffer, insertion lines onto
the B buffer; any other line flushes the pending change block and starts new
buffers holding the context line on each side whose file name is non-empty
(`linesA = fileNameA ? [line] : []`). -/
def hunkAccum (fileNameA fileNameB : Str) :
    List Str → List Str → List Str → JSNum → JSNum → List (Option Half × Option Half)
  | [], linesA, linesB, lineNoA, lineNoB => (flushPairs linesA linesB lineNoA lineNoB).1
  | line :: rest, linesA, linesB, lineNoA, lineNoB =>
    if ("-").toList.isPrefixOf line then
      hunkAccum fileNameA fileNameB rest (linesA ++ [line]) linesB lineNoA lineNoB
    else if ("+").toList.isPrefixOf line then
      hunkAccum fileNameA fileNameB rest linesA (linesB ++ [line]) lineNoA lineNoB
    else
      let f := flushPairs linesA linesB lineNoA lineNoB
      f.1 ++ hunkAccum fileNameA fileNameB rest
        (if fileNameA.isEmpty then [] else [line])
        (if fileNameB.isEmpty then [] else [line]) f.2.1 f.2.2

/-- The full sequence of side-by-side rows generated for one hunk body. -/
def hunkPairs (hunkLines : List Str) (lineNoA lineNoB : JSNum)
    (fileNameA fileNameB : Str) : List (Option Half × Option Half) :=
  hunkAccum fileNameA fileNameB hunkLines [] [] lineNoA lineNoB

/-- `formatHunkSideBySide`: the fitted, padded hunk header followed by the
formatted rows of the body. -/
def formatHunkSideBySide (cfg : Config) (th : Theme) (hunkHeaderLine : Str)
    (hunkLines : List Str) (lineNoA lineNoB : JSNum) (fileNameA fileNameB : Str) : Lines :=
  (fitTextToWidth cfg hunkHeaderLine (cfg.SCREEN_WIDTH : Int)).map
      (fun line => th.HUNK_HEADER_COLOR (jsPadEnd line (cfg.SCREEN_WIDTH : Int))) ++
    (hunkPairs hunkLines lineNoA lineNoB fileNameA fileNameB).flatMap
      (fun p => formatHunkLine cfg th p.1 p.2)

/-- The tail of the binary-files pattern after `" and "`: matches
`(?:b\/(.*)|\/dev\/null) differ$` with a greedy group, returning the captured
group (`none` when the `/dev/null` alternative matched). -/
def binTail (t : Str) : Option (Option Str) :=
  if (" differ").toList.isSuffixOf t then
    let x := t.take (t.length - 7)
    if ("b/").toList.isPrefixOf x then some (some (x.drop 2))
    else if x = ("/dev/null").toList then some (none : Option Str)
    else none
  else none

/-- `BINARY_FILES_DIFF_REGEX`:
`^Binary files (?:a\/(.*)|\/dev\/null) and (?:b\/(.*)|\/dev\/null) differ$`.
The first group is greedy, so the rightmost `" and "` split that lets the rest
of the pattern match is taken (`findSome?` over the reversed range).  Each
returned component is the captured group, `none` when the `/dev/null`
alternative matched (JavaScript leaves the group `undefined`). -/
def binaryFilesMatch (line : Str) : Option (Option Str × Option Str) :=
  if ("Binary files ").toList.isPrefixOf line then
    let rest := line.drop 13
    if ("a/").toList.isPrefixOf rest then
      let body := rest.drop 2
      (List.range (body.length + 1)).reverse.findSome? (fun i =>
        if (" and ").toList.isPrefixOf (body.drop i) then
          (binTail (body.drop (i + 5))).map (fun g2 => (some (body.take i), g2))
        else none)
    else if ("/dev/null and ").toList.isPrefixOf rest then
      (binTail (rest.drop 14)).map (fun g2 => ((none : Option Str), g2))
    else none
  else none

/-- The hunk-header parsing performed when a line starting with `@@` arrives:
`indexOf` searches and `assert.ok` checks, the slice between the delimiters,
the space split into the two range headers (destructuring `[aHeader, bHeader]`
throws a `TypeError` when fewer than two fields exist), the comma split, the
sign checks and the two `parseInt` calls.  An `Except.error` models the thrown
`AssertionError`/`TypeError` aborting the stream. -/
def parseHunkHeaderLine (line : Str) : Except Str (JSNum × JSNum) :=
  let hunkHeaderStart := jsIndexOf line (("@@ ").toList) 0
  if hunkHeaderStart < 0 then Except.error ("assert: hunkHeaderStart >= 0").toList
  else
    let hunkHeaderEnd := jsIndexOf line ((" @@").toList) (hunkHeaderStart.toNat + 1)
    if hunkHeaderEnd ≤ hunkHeaderStart then Except.error ("assert: hunkHeaderEnd > hunkHeaderStart").toList
    else
      let hunkHeader := jsSliceNat line (hunkHeaderStart.toNat + 3) hunkHeaderEnd.toNat
      match splitChar ' ' hunkHeader with
      | aHeader :: bHeader :: _ =>
        let startAString := headD (splitChar ',' aHeader)
        let startBString := headD (splitChar ',' bHeader)
        if ("-").toList.isPrefixOf startAString then
          if ("+").toList.isPrefixOf startBString then
            Except.ok (jsParseInt (startAString.drop 1), jsParseInt (startBString.drop 1))
          else Except.error ("assert: startBString starts with +").toList
        else Except.error ("assert: startAString starts with -").toList
      | _ => Except.error ("TypeError: bHeader is undefined").toList

/-- `ParserState`. -/
inductive ParserState where
  | commit
  | diff
  | hunk
deriving DecidableEq

/-- The mutable bindings of the generator returned by `iterSideBySideDiff`. -/
structure MachineState where
  state : ParserState
  fileNameA : Str
  fileNameB : Str
  startA : JSNum
  startB : JSNum
  hunkHeaderLine : Str
  hunkLines : List Str
deriving DecidableEq

/-- The initial bindings (`state = 'commit'`, empty names, `startA = startB =
-1`, empty header and buffer). -/
def initialState : MachineState :=
  { state := ParserState.commit, fileNameA := [], fileNameB := [],
    startA := some (-1), startB := some (-1), hunkHeaderLine := [], hunkLines := [] }

/-- `yieldHunk` without its buffer reset: the lines produced for the pending
hunk. -/
def yieldHunkOut (cfg : Config) (th : Theme) (st : MachineState) : Lines :=
  formatHunkSideBySide cfg th st.hunkHeaderLine st.hunkLines st.startA st.startB
    st.fileNameA st.fileNameB

/-- The diff-state dispatch (`case 'diff'` of the switch): updates the file
names from recognized header lines, emitting nothing. -/
def diffDispatch (st : MachineState) (line : Str) : MachineState :=
  if ("--- a/").toList.isPrefixOf line then { st with fileNameA := line.drop 6 }
  else if ("+++ b/").toList.isPrefixOf line then { st with fileNameB := line.drop 6 }
  else if ("rename from ").toList.isPrefixOf line then { st with fileNameA := line.drop 12 }
  else if ("rename to ").toList.isPrefixOf line then { st with fileNameB := line.drop 10 }
  else if ("Binary files").toList.isPrefixOf line then
    match binaryFilesMatch line with
    | some (g1, g2) => { st with fileNameA := g1.getD [], fileNameB := g2.getD [] }
    | none => st
  else st

/-- One iteration of the `for await` loop: the state-transition checks
followed by the per-state dispatch.  The produced output lines are returned
alongside the new state; an `Except.error` models an exception aborting the
stream. -/
def stepLine (cfg : Config) (th : Theme) (st : MachineState) (line : Str) :
    Except Str (MachineState × Lines)  :=
  if ("commit ").toList.isPrefixOf line then
    let flushed : Lines :=
      match st.state with
      | ParserState.diff => formatFileName cfg th st.fileNameA st.fileNameB
      | ParserState.hunk => yieldHunkOut cfg th st ++ [HORIZONTAL_SEPARATOR cfg th]
      | ParserState.commit => []
    let st1 := { st with
      state := ParserState.commit
      hunkLines := if st.state = ParserState.hunk then [] else st.hunkLines }
    Except.ok (st1, flushed ++ [formatCommitLine cfg th line])
  else if ("diff --git").toList.isPrefixOf line then
    let flushed : Lines :=
      match st.state with
      | ParserState.diff => formatFileName cfg th st.fileNameA st.fileNameB
      | ParserState.hunk => yieldHunkOut cfg th st
      | ParserState.commit => []
    let st1 := { st with
      state := ParserState.diff
      fileNameA := []
      fileNameB := []
      hunkLines := if st.state = ParserState.hunk then [] else st.hunkLines }
    Except.ok (st1, flushed)
  else if ("@@").toList.isPrefixOf line then
    let flushed : Lines :=
      match st.state with
      | ParserState.diff => formatFileName cfg th st.fileNameA st.fileNameB
      | ParserState.hunk => yieldHunkOut cfg th st
      | ParserState.commit => []
    match parseHunkHeaderLine line with
    | Except.error e => Except.error e
    | Except.ok (startA, startB) =>
      let st1 := { st with
        state := ParserState.hunk
        startA := startA
        startB := startB
        hunkHeaderLine := line
        hunkLines := if st.state = ParserState.hunk then [] else st.hunkLines }
      Except.ok (st1, flushed)
  else
    match st.state with
    | ParserState.commit => Except.ok (st, [formatCommitLine cfg th line])
    | ParserState.diff => Except.ok (diffDispatch st line, [])
    | ParserState.hunk => Except.ok ({ st with hunkLines := st.hunkLines ++ [line] }, [])

/-- The flush performed when the input is exhausted. -/
def finalFlush (cfg : Config) (th : Theme) (st : MachineState) : Lines :=
  match st.state with
  | ParserState.diff => formatFileName cfg th st.fileNameA st.fileNameB
  | ParserState.hunk => yieldHunkOut cfg th st
  | ParserState.commit => []

/-- Runs the generator body from an arbitrary state over the remaining input
lines, ending with the end-of-stream flush. -/
def processFrom (cfg : Config) (th : Theme) (st : MachineState) : List Str → Except Str Lines
  | [] => Except.ok (finalFlush cfg th st)
  | line :: rest =>
    match stepLine cfg th st line with
    | Except.error e => Except.error e
    | Except.ok (st1, out) =>
      match processFrom cfg th st1 rest with
      | Except.error e => Except.error e
      | Except.ok out2 => Except.ok (out ++ out2)

/-- The whole transformer: the async generator returned by
`iterSideBySideDiff cfg th`, as a function from the list of input lines to
the list of output lines (or the exception aborting the stream). -/
def processLines (cfg : Config) (th : Theme) (input : List Str) : Except Str Lines :=
  processFrom cfg th initialState input

/-- The accumulation over one hunk's raw lines as the claim words it (C1):
on a context line, flush the current A/B buffers, then treat the context line
as a singleton block present on both sides and flush immediately again,
regardless of the file names.  Written to be compared with `hunkAccum`, which
is translated from the source. -/
def claimedAccum : List Str → List Str → List Str → JSNum → JSNum → List (Option Half × Option Half)
  | [], linesA, linesB, lineNoA, lineNoB => (flushPairs linesA linesB lineNoA lineNoB).1
  | line :: rest, linesA, linesB, lineNoA, lineNoB =>
    if ("-").toList.isPrefixOf line then claimedAccum rest (linesA ++ [line]) linesB lineNoA lineNoB
    else if ("+").toList.isPrefixOf line then claimedAccum rest linesA (linesB ++ [line]) lineNoA lineNoB
    else
      let f := flushPairs linesA linesB lineNoA lineNoB
      let g := flushPairs [line] [line] f.2.1 f.2.2
      f.1 ++ g.1 ++ claimedAccum rest [] [] g.2.1 g.2.2

/-- `formatHunkSideBySide` with the claim's context-line behavior
(`claimedAccum`) in place of the source's. -/
def formatHunkSideBySideClaimed (cfg : Config) (th : Theme) (hunkHeaderLine : Str)
    (hunkLines : List Str) (lineNoA lineNoB : JSNum) : Lines :=
  (fitTextToWidth cfg hunkHeaderLine (cfg.SCREEN_WIDTH : Int)).map
      (fun line => th.HUNK_HEADER_COLOR (jsPadEnd line (cfg.SCREEN_WIDTH : Int))) ++
    (claimedAccum hunkLines [] [] lineNoA lineNoB).flatMap
      (fun p => formatHunkLine cfg th p.1 p.2)

/-- The banner indicator as the spec words it (C7, §4.3): inserted-color
two-character block when `fileNameA` is empty, deleted-color two-character
block when `fileNameB` is empty, otherwise one deleted-color plus one
inserted-color character. -/
def bannerIndicatorSpec (th : Theme) (fileNameA fileNameB : Str) : Str :=
  if fileNameA.isEmpty then th.INSERTED_LINE_COLOR ['■', '■']
  else if fileNameB.isEmpty then th.DELETED_LINE_COLOR ['■', '■']
  else th.DELETED_LINE_COLOR ['■'] ++ th.INSERTED_LINE_COLOR ['■']

/-- The banner label as the spec words it (C7, §4.3): `fileNameB` when
`fileNameA` is empty, `fileNameA` when `fileNameB` is empty, `fileNameA` when
both are equal, otherwise `fileNameA -> fileNameB`. -/
def bannerLabelSpec (th : Theme) (fileNameA fileNameB : Str) : Str :=
  if fileNameA.isEmpty then fileNameB
  else if fileNameB.isEmpty then fileNameA
  else if fileNameA = fileNameB then fileNameA
  else th.FILE_NAME_COLOR (fileNameA ++ (" -> ").toList ++ fileNameB)

/-- The banner body line as the spec words it: leading colored space, the
indicator block, then the label padded to fill the remaining width. -/
def bannerBodySpec (cfg : Config) (th : Theme) (fileNameA fileNameB : Str) : Str :=
  th.FILE_NAME_COLOR [' '] ++ bannerIndicatorSpec th fileNameA fileNameB ++
    th.FILE_NAME_COLOR (' ' :: jsPadEnd (bannerLabelSpec th fileNameA fileNameB)
      ((cfg.SCREEN_WIDTH : Int) - 2 - 2))

/-- The line numbers shown on the consumed (non-missing) left halves of a row
sequence, in order. -/
def leftNumbers (ps : List (Option Half × Option Half)) : List Str :=
  ps.filterMap (fun p => p.1.map Half.number)

/-- The line numbers shown on the consumed (non-missing) right halves of a row
sequence, in order. -/
def rightNumbers (ps : List (Option Half × Option Half)) : List Str :=
  ps.filterMap (fun p => p.2.map Half.number)

/-- Bound on a file-name length under which every banner label fits the
banner body width. -/
def nameBound (cfg : Config) : Nat := (cfg.SCREEN_WIDTH - 8) / 2

/-- The three commit labels recognized by `formatCommitLine`. -/
def labelWords : List Str := [("commit").toList, ("Author:").toList, ("Date:").toList]

/-- Per-line side conditions under which one input line cannot break the
fixed-width output invariant (C3): the line fits the screen; a recognized
commit label is followed by a space; every file name a line can install is
short enough for the banner; a hunk header that parses yields non-negative
numeric starts whose rendered line numbers fit `LINE_NUMBER_WIDTH` even after
`n` more lines (`n` is instantiated with the total input length). -/
def lineOk (cfg : Config) (n : Nat) (line : Str) : Bool :=
  decide (line.length ≤ cfg.SCREEN_WIDTH) &&
  (if (jsFirstWord line) ∈ labelWords then decide ((jsFirstWord line).length < line.length) else true) &&
  (if ("--- a/").toList.isPrefixOf line then decide ((line.drop 6).length ≤ nameBound cfg) else true) &&
  (if ("+++ b/").toList.isPrefixOf line then decide ((line.drop 6).length ≤ nameBound cfg) else true) &&
  (if ("rename from ").toList.isPrefixOf line then decide ((line.drop 12).length ≤ nameBound cfg) else true) &&
  (if ("rename to ").toList.isPrefixOf line then decide ((line.drop 10).length ≤ nameBound cfg) else true) &&
  (match binaryFilesMatch line with
   | some (g1, g2) =>
     decide ((g1.getD []).length ≤ nameBound cfg) && decide ((g2.getD []).length ≤ nameBound cfg)
   | none => true) &&
  (if ("@@").toList.isPrefixOf line then
     match parseHunkHeaderLine line with
     | Except.error _ => true
     | Except.ok (sa, sb) =>
       (match sa with
        | some a => decide (0 ≤ a) && decide ((natDigits (a.toNat + n)).length ≤ cfg.LINE_NUMBER_WIDTH)
        | none => false) &&
       (match sb with
        | some b => decide (0 ≤ b) && decide ((natDigits (b.toNat + n)).length ≤ cfg.LINE_NUMBER_WIDTH)
        | none => false)
   else true)

/-- A small concrete configuration used by concrete instantiations:
20 columns, 3-digit line numbers, 1-character prefixes, truncation mode. -/
def cfgA : Config :=
  { SCREEN_WIDTH := 20, LINE_NUMBER_WIDTH := 3, LINE_PREFIX_WIDTH := 1,
    MIN_LINE_WIDTH := 0, WRAP_LINES := false }

/-- A degenerate concrete configuration on which the unclamped
`LINE_TEXT_WIDTH` subtraction goes negative. -/
def cfgNeg : Config :=
  { SCREEN_WIDTH := 4, LINE_NUMBER_WIDTH := 0, LINE_PREFIX_WIDTH := 5,
    MIN_LINE_WIDTH := 2, WRAP_LINES := false }

/-- A concrete input stream exercising commit, file-header, banner and hunk
rendering, used to instantiate hypotheses of the width theorem. -/
def inputA : List Str :=
  [("commit 12345").toList,
   ("Author: Foo Bar").toList,
   ("diff --git a/f b/f").toList,
   ("--- a/f").toList,
   ("+++ b/f").toList,
   ("@@ -1,2 +1,2 @@ fn").toList,
   ("-foo").toList,
   ("+bar").toList,
   ("+baz").toList,
   (" qux").toList]

/-- The output of the run on `inputA` (`processLines` succeeds on it). -/
def outputA : Lines :=
  match processLines cfgA plainTheme inputA with
  | Except.ok out => out
  | Except.error _ => []

/-- A concrete machine state in the Hunk state with a pending buffered hunk,
for instantiating end-of-stream and transition facts. -/
def stHunk : MachineState :=
  { state := ParserState.hunk, fileNameA := ("f").toList, fileNameB := ("f").toList,
    startA := some 1, startB := some 1,
    hunkHeaderLine := ("@@ -1,2 +1,2 @@").toList,
    hunkLines := [("-foo").toList, ("+bar").toList] }

/-- A concrete machine state in the DiffHeader state with a pending file-name
banner. -/
def stDiff : MachineState :=
  { state := ParserState.diff, fileNameA := ("old.txt").toList, fileNameB := ("new.txt").toList,
    startA := some (-1), startB := some (-1), hunkHeaderLine := [], hunkLines := [] }

/-- Number of raw lines consumed on the left side when the accumulator walks
the given hunk lines: every deletion line, plus every context line when
`fileNameA` is non-empty. -/
def lcount (fileNameA : Str) : List Str → Nat
  | [] => 0
  | line :: rest =>
    if ("-").toList.isPrefixOf line then 1 + lcount fileNameA rest
    else if ("+").toList.isPrefixOf line then lcount fileNameA rest
    else (if fileNameA.isEmpty then 0 else 1) + lcount fileNameA rest

/-- Number of raw lines consumed on the right side: every insertion line,
plus every context line when `fileNameB` is non-empty. -/
def rcount (fileNameB : Str) : List Str → Nat
  | [] => 0
  | line :: rest =>
    if ("-").toList.isPrefixOf line then rcount fileNameB rest
    else if ("+").toList.isPrefixOf line then 1 + rcount fileNameB rest
    else (if fileNameB.isEmpty then 0 else 1) + rcount fileNameB rest

/-- The list of `k` consecutive decimal renderings starting at `a`:
`[a, a+1, ..., a+k-1]` as strings. -/
def numsFrom (a : Int) : Nat → List Str
  | 0 => []
  | k + 1 => intRepr a :: numsFrom (a + 1) k

/-- The optional `,count` part of one side of a hunk-header range. -/
def optCount : Option Nat → Str
  | none => []
  | some c => ',' :: natDigits c

/-- All decimal renderings of the `k` integers starting at `a` fit in
`LINE_NUMBER_WIDTH` columns (and the range is non-negative). -/
def NumsOk (cfg : Config) (a : Int) (k : Nat) : Prop :=
  0 ≤ a ∧ ∀ n : Int, a ≤ n → n < a + k → (intRepr n).length ≤ cfg.LINE_NUMBER_WIDTH

/-- The rendered number and prefix of a (possibly missing) line half fit
their column widths. -/
def HalfOk (cfg : Config) (h : Option Half) : Prop :=
  match h with
  | none => True
  | some hf =>
    hf.number.length ≤ cfg.LINE_NUMBER_WIDTH ∧ hf.linePrefix.length ≤ cfg.LINE_PREFIX_WIDTH

/-- Machine-state invariant for the fixed-width theorem: the tracked file
names fit the banner, and in the Hunk state the start counters are numeric
and every line number reachable from them (buffered lines plus `r` more
input lines) renders within `LINE_NUMBER_WIDTH`. -/
def StateOk (cfg : Config) (st : MachineState) (r : Nat) : Prop :=
  st.fileNameA.length ≤ nameBound cfg ∧ st.fileNameB.length ≤ nameBound cfg ∧
  (st.state = ParserState.hunk →
    ∃ a b : Int, st.startA = some a ∧ st.startB = some b ∧
      NumsOk cfg a (st.hunkLines.length + r) ∧ NumsOk cfg b (st.hunkLines.length + r)) ∧
  (st.state ≠ ParserState.hunk → st.hunkLines = [])

theorem length_jsPadStart (s : Str) (n : Nat) : (jsPadStart s n).length = max n s.length := by
  simp [jsPadStart]
  omega

theorem length_jsPadEnd (s : Str) (n : Int) : (jsPadEnd s n).length = max n.toNat s.length := by
  simp [jsPadEnd]
  omega

theorem jsPadEnd_of_le (s : Str) (n : Int) (h : n.toNat ≤ s.length) : jsPadEnd s n = s := by
  simp [jsPadEnd]
  omega

theorem jsSliceTo_of_nonneg (s : Str) (w : Int) (h : 0 ≤ w) : jsSliceTo s w = s.take w.toNat := by
  rw [jsSliceTo, if_neg]
  omega

/-- C2: the spec claims `LINE_TEXT_WIDTH` is the width difference clamped to
be non-negative, but the source applies `Math.max` to a single argument — the
identity — so no clamping happens: on `cfgNeg` (SCREEN_WIDTH 4,
LINE_NUMBER_WIDTH 0, LINE_PREFIX_WIDTH 5, MIN_LINE_WIDTH 2) the code yields
`LINE_TEXT_WIDTH = -5 < 0`, while `LINE_WIDTH` does satisfy the claimed
`max`-of-half-screen form. -/
theorem claim_C2_line_text_width_negative :
    LINE_TEXT_WIDTH cfgNeg = -5 ∧ LINE_TEXT_WIDTH cfgNeg < 0 ∧
      LINE_WIDTH cfgNeg = max (cfgNeg.SCREEN_WIDTH / 2) cfgNeg.MIN_LINE_WIDTH ∧
      cfgNeg.MIN_LINE_WIDTH ≤ LINE_WIDTH cfgNeg := by
  refine ⟨by decide, by decide, rfl, by decide⟩

/-- C8: the transformer is deterministic — for a fixed `Config` and `Theme`,
two runs over identical input line sequences produce identical results.  In
this shallow embedding the generator is the pure function `processLines`
(all the closure-mutable bindings are created afresh inside the returned
generator), so determinism is congruence of application. -/
theorem claim_C8_deterministic (cfg : Config) (th : Theme) (input1 input2 : List Str)
    (h : input1 = input2) :
    processLines cfg th input1 = processLines cfg th input2 := by
  rw [h]

theorem claim_C8_deterministic_witness :
    processLines cfgA plainTheme inputA = processLines cfgA plainTheme inputA :=
  claim_C8_deterministic cfgA plainTheme inputA inputA rfl

/-- C10: in the Commit state, a line whose first space-delimited word is not
a recognized commit label is rendered as `COMMIT_COLOR(line.padEnd(W))`: a
line longer than `SCREEN_WIDTH` is emitted in full (padEnd never truncates,
and truncation/wrapping is not applied), exceeding `SCREEN_WIDTH` columns,
while a line of length at most `SCREEN_WIDTH` is padded to exactly
`SCREEN_WIDTH` columns (measured with the identity theme, i.e. excluding
color escapes). -/
theorem claim_C10_commit_line_overflow (cfg : Config) (line : Str)
    (hlabel : jsFirstWord line ∉ labelWords) :
    (∀ th : Theme, formatCommitLine cfg th line = th.COMMIT_COLOR (jsPadEnd line (cfg.SCREEN_WIDTH : Int))) ∧
    (cfg.SCREEN_WIDTH < line.length →
      formatCommitLine cfg plainTheme line = line ∧
        cfg.SCREEN_WIDTH < (formatCommitLine cfg plainTheme line).length) ∧
    (line.length ≤ cfg.SCREEN_WIDTH →
      (formatCommitLine cfg plainTheme line).length = cfg.SCREEN_WIDTH) := by
  simp only [labelWords, List.mem_cons, List.not_mem_nil, or_false, not_or] at hlabel
  obtain ⟨h1, h2, h3⟩ := hlabel
  have hform : ∀ th : Theme,
      formatCommitLine cfg th line = th.COMMIT_COLOR (jsPadEnd line (cfg.SCREEN_WIDTH : Int)) := by
    intro th
    rw [formatCommitLine, if_neg h1, if_neg h2, if_neg h3]
  refine ⟨hform, fun hlong => ?_, fun hshort => ?_⟩
  · have hid : formatCommitLine cfg plainTheme line = jsPadEnd line (cfg.SCREEN_WIDTH : Int) :=
      hform plainTheme
    have hpad : jsPadEnd line (cfg.SCREEN_WIDTH : Int) = line := by
      apply jsPadEnd_of_le
      simp
      omega
    rw [hid, hpad]
    exact ⟨rfl, hlong⟩
  · rw [hform plainTheme]
    show (jsPadEnd line (cfg.SCREEN_WIDTH : Int)).length = cfg.SCREEN_WIDTH
    rw [length_jsPadEnd]
    simp
    omega

theorem claim_C10_commit_line_overflow_witness :
    formatCommitLine cfgA plainTheme (("this line is well over twenty columns").toList) =
        ("this line is well over twenty columns").toList ∧
      (formatCommitLine cfgA plainTheme (("short line").toList)).length = cfgA.SCREEN_WIDTH :=
  ⟨((claim_C10_commit_line_overflow cfgA (("this line is well over twenty columns").toList)
      (by decide)).2.1 (by decide)).1,
    (claim_C10_commit_line_overflow cfgA (("short line").toList) (by decide)).2.2 (by decide)⟩

/-- C7: for every file-name pair the banner is the top separator, one body
line, and an identical bottom separator; the body line carries the
inserted-color two-character indicator and label `fileNameB` when `fileNameA`
is empty, the deleted-color two-character indicator and label `fileNameA`
when `fileNameB` is empty, and otherwise a one-deleted-plus-one-inserted
indicator with label `fileNameA` when the names agree and
`fileNameA -> fileNameB` when they differ (`bannerBodySpec` is the spec's
wording of that body line). -/
theorem claim_C7_banner (cfg : Config) (th : Theme) (fileNameA fileNameB : Str) :
    formatFileName cfg th fileNameA fileNameB =
      [HORIZONTAL_SEPARATOR cfg th, bannerBodySpec cfg th fileNameA fileNameB,
        HORIZONTAL_SEPARATOR cfg th] := by
  simp only [formatFileName, bannerBodySpec, bannerIndicatorSpec, bannerLabelSpec]
  split_ifs <;> rfl

/-- C6: exhaustion of the input in the Hunk state still flushes and emits the
pending hunk — its header and all buffered body lines, including the final
pending change block (`formatHunkSideBySide` ends with a final flush of the
buffers); exhaustion in the DiffHeader state still emits the pending
file-name banner. -/
theorem claim_C6_eof_flush (cfg : Config) (th : Theme) (st : MachineState) :
    (st.state = ParserState.hunk →
      processFrom cfg th st [] =
        Except.ok (formatHunkSideBySide cfg th st.hunkHeaderLine st.hunkLines
          st.startA st.startB st.fileNameA st.fileNameB)) ∧
    (st.state = ParserState.diff →
      processFrom cfg th st [] =
        Except.ok (formatFileName cfg th st.fileNameA st.fileNameB)) := by
  constructor <;> intro h <;> simp [processFrom, finalFlush, h, yieldHunkOut]

theorem claim_C6_eof_flush_witness :
    processFrom cfgA plainTheme stHunk [] =
        Except.ok (formatHunkSideBySide cfgA plainTheme stHunk.hunkHeaderLine stHunk.hunkLines
          stHunk.startA stHunk.startB stHunk.fileNameA stHunk.fileNameB) ∧
      processFrom cfgA plainTheme stDiff [] =
        Except.ok (formatFileName cfgA plainTheme stDiff.fileNameA stDiff.fileNameB) :=
  ⟨(claim_C6_eof_flush cfgA plainTheme stHunk).1 rfl,
    (claim_C6_eof_flush cfgA plainTheme stDiff).2 rfl⟩

theorem isPrefixOf_false_of_head_ne (a b : Char) (as bs : Str) (h : a ≠ b) :
    (a :: as).isPrefixOf (b :: bs) = false := by
  simp [List.isPrefixOf, h]

theorem head_ne_not_prefix (a b : Char) (as bs : Str) (h : a ≠ b) : ¬ (a :: as) <+: (b :: bs) := by
  intro hc
  rw [List.cons_prefix_cons] at hc
  exact h hc.1

theorem not_commit_prefix_of_diff_prefix (line : Str)
    (h : ("diff --git").toList <+: line) :
    ¬ ("commit ").toList <+: line := by
  obtain ⟨t, rfl⟩ := h
  exact head_ne_not_prefix 'c' 'd' _ _ (by decide)

theorem not_commit_prefix_of_atat_prefix (line : Str)
    (h : ("@@").toList <+: line) :
    ¬ ("commit ").toList <+: line := by
  obtain ⟨t, rfl⟩ := h
  exact head_ne_not_prefix 'c' '@' _ _ (by decide)

theorem not_diff_prefix_of_atat_prefix (line : Str)
    (h : ("@@").toList <+: line) :
    ¬ ("diff --git").toList <+: line := by
  obtain ⟨t, rfl⟩ := h
  exact head_ne_not_prefix 'd' '@' _ _ (by decide)

/-- C9: when a commit-boundary line arrives in the Hunk state the machine
emits the flushed hunk followed by one extra horizontal separator (and then
the formatted commit line produced by the dispatch); the same hunk flush
triggered by a diff-section line, a (successfully parsed) hunk-header line,
or end of stream emits no extra separator. -/
theorem claim_C9_commit_separator (cfg : Config) (th : Theme) (st : MachineState) (line : Str)
    (hst : st.state = ParserState.hunk) :
    (("commit ").toList.isPrefixOf line = true →
      stepLine cfg th st line = Except.ok
        ({ st with state := ParserState.commit, hunkLines := [] },
          yieldHunkOut cfg th st ++ [HORIZONTAL_SEPARATOR cfg th] ++
            [formatCommitLine cfg th line])) ∧
    (("diff --git").toList.isPrefixOf line = true →
      stepLine cfg th st line = Except.ok
        ({ st with state := ParserState.diff, fileNameA := [], fileNameB := [], hunkLines := ([] : List Str) },
          yieldHunkOut cfg th st)) ∧
    (("@@").toList.isPrefixOf line = true →
      ∀ sa sb, parseHunkHeaderLine line = Except.ok (sa, sb) →
        stepLine cfg th st line = Except.ok
          ({ st with state := ParserState.hunk, startA := sa, startB := sb, hunkHeaderLine := line, hunkLines := ([] : List Str) },
            yieldHunkOut cfg th st)) ∧
    processFrom cfg th st [] = Except.ok (yieldHunkOut cfg th st) := by
  refine ⟨fun hc => ?_, fun hd => ?_, fun ha sa sb hp => ?_, ?_⟩
  · have hc2 := List.isPrefixOf_iff_prefix.mp hc
    simp at hc2
    simp [stepLine, hc2, hst]
  · have hd2 := List.isPrefixOf_iff_prefix.mp hd
    have hnc := not_commit_prefix_of_diff_prefix line hd2
    simp at hd2 hnc
    simp [stepLine, hd2, hnc, hst]
  · have ha2 := List.isPrefixOf_iff_prefix.mp ha
    have hnc := not_commit_prefix_of_atat_prefix line ha2
    have hnd := not_diff_prefix_of_atat_prefix line ha2
    simp at ha2 hnc hnd
    simp [stepLine, ha2, hnc, hnd, hst, hp]
  · simp [processFrom, finalFlush, hst]

theorem claim_C9_commit_separator_witness :
    stepLine cfgA plainTheme stHunk (("commit abc").toList) = Except.ok
        ({ stHunk with state := ParserState.commit, hunkLines := [] },
          yieldHunkOut cfgA plainTheme stHunk ++ [HORIZONTAL_SEPARATOR cfgA plainTheme] ++
            [formatCommitLine cfgA plainTheme (("commit abc").toList)]) ∧
      stepLine cfgA plainTheme stHunk (("diff --git a/g b/g").toList) = Except.ok
        ({ stHunk with state := ParserState.diff, fileNameA := [], fileNameB := [], hunkLines := ([] : List Str) },
          yieldHunkOut cfgA plainTheme stHunk) ∧
      stepLine cfgA plainTheme stHunk (("@@ -2 +3 @@").toList) = Except.ok
        ({ stHunk with state := ParserState.hunk, startA := some 2, startB := some 3, hunkHeaderLine := ("@@ -2 +3 @@").toList, hunkLines := ([] : List Str) },
          yieldHunkOut cfgA plainTheme stHunk) ∧
      processFrom cfgA plainTheme stHunk [] = Except.ok (yieldHunkOut cfgA plainTheme stHunk) :=
  ⟨(claim_C9_commit_separator cfgA plainTheme stHunk (("commit abc").toList) rfl).1 (by decide),
    (claim_C9_commit_separator cfgA plainTheme stHunk (("diff --git a/g b/g").toList) rfl).2.1
      (by decide),
    (claim_C9_commit_separator cfgA plainTheme stHunk (("@@ -2 +3 @@").toList) rfl).2.2.1
      (by decide) (some 2) (some 3) rfl,
    (claim_C9_commit_separator cfgA plainTheme stHunk [] rfl).2.2.2⟩

theorem numsFrom_add (m : Nat) : ∀ (a : Int) (n : Nat),
    numsFrom a (m + n) = numsFrom a m ++ numsFrom (a + m) n := by
  induction m with
  | zero => intro a n; simp [numsFrom]
  | succ k ih =>
    intro a n
    have h1 : k + 1 + n = (k + n) + 1 := by omega
    rw [h1]
    show intRepr a :: numsFrom (a + 1) (k + n) = (intRepr a :: numsFrom (a + 1) k) ++ numsFrom (a + ↑(k + 1)) n
    rw [ih (a + 1) n]
    have h2 : a + 1 + (k : Int) = a + ((k + 1 : Nat) : Int) := by push_cast; ring
    rw [h2]
    simp

theorem flushRight_spec (B : List Str) : ∀ (b : Int),
    leftNumbers (flushRight (some b) B).1 = [] ∧
      rightNumbers (flushRight (some b) B).1 = numsFrom b B.length ∧
      (flushRight (some b) B).2 = some (b + B.length) := by
  induction B with
  | nil => intro b; simp [flushRight, leftNumbers, rightNumbers, numsFrom]
  | cons x xs ih =>
    intro b
    obtain ⟨ihl, ihr, ihc⟩ := ih (b + 1)
    have hinc : jsInc (some b) = some (b + 1) := by simp [jsInc]
    refine ⟨?_, ?_, ?_⟩
    · simp only [flushRight, hinc, leftNumbers, List.filterMap_cons] at ihl ⊢
      simpa using ihl
    · simp only [flushRight, hinc, rightNumbers, List.filterMap_cons] at ihr ⊢
      simp only [List.length_cons, numsFrom, mkHalf, jsNumToString]
      simpa using ihr
    · simp only [flushRight, hinc] at ihc ⊢
      rw [ihc]
      congr 1
      simp only [List.length_cons]
      omega

theorem flushPairs_spec (A : List Str) : ∀ (B : List Str) (a b : Int),
    leftNumbers (flushPairs A B (some a) (some b)).1 = numsFrom a A.length ∧
      rightNumbers (flushPairs A B (some a) (some b)).1 = numsFrom b B.length ∧
      (flushPairs A B (some a) (some b)).2 = (some (a + A.length), some (b + B.length)) := by
  induction A with
  | nil =>
    intro B a b
    obtain ⟨hl, hr, hc⟩ := flushRight_spec B b
    simp only [flushPairs, List.length_nil, numsFrom]
    exact ⟨hl, hr, by simp [hc]⟩
  | cons x xs ih =>
    intro B a b
    have hincA : jsInc (some a) = some (a + 1) := by simp [jsInc]
    cases B with
    | nil =>
      obtain ⟨ihl, ihr, ihc⟩ := ih [] (a + 1) b
      refine ⟨?_, ?_, ?_⟩
      · simp only [flushPairs, hincA, leftNumbers, List.filterMap_cons] at ihl ⊢
        simp only [List.length_cons, numsFrom, mkHalf, jsNumToString]
        simpa using ihl
      · simp only [flushPairs, hincA, rightNumbers, List.filterMap_cons] at ihr ⊢
        simpa using ihr
      · simp only [flushPairs, hincA] at ihc ⊢
        rw [ihc]
        simp only [List.length_cons, List.length_nil, Prod.mk.injEq]
        refine ⟨by congr 1; omega, by simp⟩
    | cons y ys =>
      have hincB : jsInc (some b) = some (b + 1) := by simp [jsInc]
      obtain ⟨ihl, ihr, ihc⟩ := ih ys (a + 1) (b + 1)
      refine ⟨?_, ?_, ?_⟩
      · simp only [flushPairs, hincA, hincB, leftNumbers, List.filterMap_cons] at ihl ⊢
        simp only [List.length_cons, numsFrom, mkHalf, jsNumToString]
        simpa using ihl
      · simp only [flushPairs, hincA, hincB, rightNumbers, List.filterMap_cons] at ihr ⊢
        simp only [List.length_cons, numsFrom, mkHalf, jsNumToString]
        simpa using ihr
      · simp only [flushPairs, hincA, hincB] at ihc ⊢
        rw [ihc]
        simp only [List.length_cons, Prod.mk.injEq]
        constructor <;> · congr 1; omega

theorem hunkAccum_numbers (fa fb : Str) (ls : List Str) : ∀ (A B : List Str) (a b : Int),
    leftNumbers (hunkAccum fa fb ls A B (some a) (some b)) =
        numsFrom a (A.length + lcount fa ls) ∧
      rightNumbers (hunkAccum fa fb ls A B (some a) (some b)) =
        numsFrom b (B.length + rcount fb ls) := by
  induction ls with
  | nil =>
    intro A B a b
    obtain ⟨hl, hr, _⟩ := flushPairs_spec A B a b
    simp only [hunkAccum, lcount, rcount, Nat.add_zero]
    exact ⟨hl, hr⟩
  | cons l rest ih =>
    intro A B a b
    cases hdel : (("-").toList.isPrefixOf l) with
    | true =>
      obtain ⟨ihl, ihr⟩ := ih (A ++ [l]) B a b
      simp only [hunkAccum, hdel, if_true, lcount, rcount]
      refine ⟨?_, ?_⟩
      · rw [ihl]
        congr 1
        simp
        omega
      · rw [ihr]
    | false =>
      cases hins : (("+").toList.isPrefixOf l) with
      | true =>
        obtain ⟨ihl, ihr⟩ := ih A (B ++ [l]) a b
        simp only [hunkAccum, hdel, hins, if_true, if_false, Bool.false_eq_true, lcount, rcount]
        refine ⟨?_, ?_⟩
        · rw [ihl]
        · rw [ihr]
          congr 1
          simp
          omega
      | false =>
        obtain ⟨hl, hr, hc⟩ := flushPairs_spec A B a b
        have hc1 : (flushPairs A B (some a) (some b)).2.1 = some (a + A.length) := by rw [hc]
        have hc2 : (flushPairs A B (some a) (some b)).2.2 = some (b + B.length) := by rw [hc]
        have hA0 : (if fa.isEmpty then ([] : List Str) else [l]).length =
            (if fa.isEmpty then 0 else 1) := by split <;> simp
        have hB0 : (if fb.isEmpty then ([] : List Str) else [l]).length =
            (if fb.isEmpty then 0 else 1) := by split <;> simp
        obtain ⟨ihl, ihr⟩ := ih (if fa.isEmpty then ([] : List Str) else [l])
          (if fb.isEmpty then ([] : List Str) else [l]) (a + A.length) (b + B.length)
        rw [hA0] at ihl
        rw [hB0] at ihr
        simp only [hunkAccum, hdel, hins, if_false, Bool.false_eq_true, lcount, rcount]
        rw [hc1, hc2]
        refine ⟨?_, ?_⟩
        · simp only [leftNumbers, List.filterMap_append] at ihl ⊢
          rw [ihl, numsFrom_add A.length a ((if fa.isEmpty then 0 else 1) + lcount fa rest)]
          simp only [leftNumbers] at hl
          rw [hl]
        · simp only [rightNumbers, List.filterMap_append] at ihr ⊢
          rw [ihr, numsFrom_add B.length b ((if fb.isEmpty then 0 else 1) + rcount fb rest)]
          simp only [rightNumbers] at hr
          rw [hr]

theorem numsFrom_length (k : Nat) : ∀ (a : Int), (numsFrom a k).length = k := by
  induction k with
  | zero => intro a; simp [numsFrom]
  | succ n ih => intro a; simp [numsFrom, ih]

/-- C5: for a hunk flushed with numeric start values `startA`/`startB`, the
sequence of line numbers shown on consumed (non-missing) left-side rows of
the generated row sequence is exactly `startA, startA+1, …` in order, and on
consumed right-side rows exactly `startB, startB+1, …`; a missing row never
advances its side's counter — the shown numbers are exactly the consecutive
run whose length is the number of consumed rows on that side. -/
theorem claim_C5_line_number_law (hunkLines : List Str) (startA startB : Int)
    (fileNameA fileNameB : Str) :
    leftNumbers (hunkPairs hunkLines (some startA) (some startB) fileNameA fileNameB) =
        numsFrom startA
          (leftNumbers (hunkPairs hunkLines (some startA) (some startB) fileNameA fileNameB)).length ∧
      rightNumbers (hunkPairs hunkLines (some startA) (some startB) fileNameA fileNameB) =
        numsFrom startB
          (rightNumbers (hunkPairs hunkLines (some startA) (some startB) fileNameA fileNameB)).length := by
  obtain ⟨hl, hr⟩ := hunkAccum_numbers fileNameA fileNameB hunkLines [] [] startA startB
  simp only [hunkPairs]
  rw [hl, hr, numsFrom_length, numsFrom_length]
  exact ⟨rfl, rfl⟩

theorem flushPairs_cons_cons (x y : Str) (A B : List Str) (nA nB : JSNum) :
    flushPairs (x :: A) (y :: B) nA nB =
      ((some (mkHalf nA x), some (mkHalf nB y)) :: (flushPairs A B (jsInc nA) (jsInc nB)).1,
        (flushPairs A B (jsInc nA) (jsInc nB)).2) := rfl

theorem flushPairs_singleton_pair (l : Str) (nA nB : JSNum) :
    flushPairs [l] [l] nA nB =
      ([(some (mkHalf nA l), some (mkHalf nB l))], jsInc nA, jsInc nB) := rfl

theorem hunkAccum_eq_claimedAccum (fa fb : Str) (hfa : fa.isEmpty = false)
    (hfb : fb.isEmpty = false) : ∀ (ls : List Str),
    (∀ (A B : List Str) (nA nB : JSNum),
      hunkAccum fa fb ls A B nA nB = claimedAccum ls A B nA nB) ∧
    (∀ (ctx : Str) (A B : List Str) (nA nB : JSNum),
      hunkAccum fa fb ls (ctx :: A) (ctx :: B) nA nB =
        (some (mkHalf nA ctx), some (mkHalf nB ctx)) ::
          claimedAccum ls A B (jsInc nA) (jsInc nB)) := by
  intro ls
  induction ls with
  | nil =>
    constructor
    · intro A B nA nB; rfl
    · intro ctx A B nA nB
      show (flushPairs (ctx :: A) (ctx :: B) nA nB).1 = _
      rw [flushPairs_cons_cons]
      rfl
  | cons l rest ih =>
    obtain ⟨ih1, ih2⟩ := ih
    constructor
    · intro A B nA nB
      cases hdel : (("-").toList.isPrefixOf l) with
      | true =>
        simp only [hunkAccum, claimedAccum, hdel, if_true]
        exact ih1 (A ++ [l]) B nA nB
      | false =>
        cases hins : (("+").toList.isPrefixOf l) with
        | true =>
          simp only [hunkAccum, claimedAccum, hdel, hins, Bool.false_eq_true, if_true, if_false]
          exact ih1 A (B ++ [l]) nA nB
        | false =>
          simp only [hunkAccum, claimedAccum, hdel, hins, hfa, hfb, Bool.false_eq_true,
            if_false]
          rw [ih2 l [] [] ((flushPairs A B nA nB).2.1) ((flushPairs A B nA nB).2.2)]
          rw [flushPairs_singleton_pair]
          simp
    · intro ctx A B nA nB
      cases hdel : (("-").toList.isPrefixOf l) with
      | true =>
        have h1 : (ctx :: A) ++ [l] = ctx :: (A ++ [l]) := by simp
        simp only [hunkAccum, claimedAccum, hdel, if_true, h1]
        exact ih2 ctx (A ++ [l]) B nA nB
      | false =>
        cases hins : (("+").toList.isPrefixOf l) with
        | true =>
          have h1 : (ctx :: B) ++ [l] = ctx :: (B ++ [l]) := by simp
          simp only [hunkAccum, claimedAccum, hdel, hins, Bool.false_eq_true, if_true,
            if_false, h1]
          exact ih2 ctx A (B ++ [l]) nA nB
        | false =>
          simp only [hunkAccum, claimedAccum, hdel, hins, hfa, hfb, Bool.false_eq_true,
            if_false]
          rw [flushPairs_cons_cons]
          rw [ih2 l [] [] ((flushPairs A B (jsInc nA) (jsInc nB)).2.1)
            ((flushPairs A B (jsInc nA) (jsInc nB)).2.2)]
          rw [flushPairs_singleton_pair]
          simp

/-- C1 counterexample: in a pure-addition file (`fileNameA` empty) the source
does not treat a context line as a singleton block on side A
(`linesA = fileNameA ? [line] : []`), so the rendered hunk differs from the
claimed both-sided-singleton behavior at this concrete input. -/
theorem claim_C1_counterexample :
    formatHunkSideBySide cfgA plainTheme (("@@ -1 +1,2 @@").toList) [(" ctx").toList]
        (some 1) (some 1) [] (("f").toList) ≠
      formatHunkSideBySideClaimed cfgA plainTheme (("@@ -1 +1,2 @@").toList) [(" ctx").toList]
        (some 1) (some 1) := by
  decide

/-- C1 amended: when both `fileNameA` and `fileNameB` are non-empty, the
accumulation behaves as the claim states — each context line flushes the
pending A/B buffers and acts as a singleton block present on both sides,
flushed as a two-sided row — and the rendered hunk equals the claimed
immediate-double-flush rendering; the "regardless of fileNameA/fileNameB"
part is what fails (see the counterexample). -/
theorem claim_C1_context_flush_amended (cfg : Config) (th : Theme) (hunkHeaderLine : Str)
    (hunkLines : List Str) (lineNoA lineNoB : JSNum) (fileNameA fileNameB : Str)
    (hfa : fileNameA.isEmpty = false) (hfb : fileNameB.isEmpty = false) :
    formatHunkSideBySide cfg th hunkHeaderLine hunkLines lineNoA lineNoB fileNameA fileNameB =
      formatHunkSideBySideClaimed cfg th hunkHeaderLine hunkLines lineNoA lineNoB := by
  unfold formatHunkSideBySide formatHunkSideBySideClaimed hunkPairs
  rw [(hunkAccum_eq_claimedAccum fileNameA fileNameB hfa hfb hunkLines).1]

theorem claim_C1_context_flush_amended_witness :
    formatHunkSideBySide cfgA plainTheme (("@@ -1,2 +1,2 @@").toList)
        [(" c1").toList, ("-a").toList, ("+b").toList, (" c2").toList]
        (some 1) (some 1) (("f").toList) (("g").toList) =
      formatHunkSideBySideClaimed cfgA plainTheme (("@@ -1,2 +1,2 @@").toList)
        [(" c1").toList, ("-a").toList, ("+b").toList, (" c2").toList]
        (some 1) (some 1) :=
  claim_C1_context_flush_amended cfgA plainTheme (("@@ -1,2 +1,2 @@").toList)
    [(" c1").toList, ("-a").toList, ("+b").toList, (" c2").toList]
    (some 1) (some 1) (("f").toList) (("g").toList) (by decide) (by decide)

theorem natDigitsAux_fuel : ∀ (f g n : Nat), n ≤ f → n ≤ g → natDigitsAux g n = natDigitsAux n n := by
  intro f
  induction f with
  | zero =>
    intro g n hf hg
    have h0 : n = 0 := by omega
    subst h0
    cases g with
    | zero => rfl
    | succ t => rfl
  | succ k ih =>
    intro g n hf hg
    by_cases h10 : n < 10
    · cases g with
      | zero =>
        have h0 : n = 0 := by omega
        subst h0
        rfl
      | succ t =>
        cases n with
        | zero => rfl
        | succ m =>
          simp only [natDigitsAux, if_pos h10]
    · have h1 : 10 ≤ n := by omega
      obtain ⟨t, rfl⟩ : ∃ t, g = t + 1 := ⟨g - 1, by omega⟩
      obtain ⟨m, rfl⟩ : ∃ m, n = m + 1 := ⟨n - 1, by omega⟩
      simp only [natDigitsAux, if_neg h10]
      have hd1 : (m + 1) / 10 ≤ k := by omega
      have hd2 : (m + 1) / 10 ≤ t := by omega
      have hd3 : (m + 1) / 10 ≤ m := by omega
      rw [ih t ((m + 1) / 10) hd1 hd2, ih m ((m + 1) / 10) hd1 hd3]

theorem natDigits_lt (n : Nat) (h : n < 10) : natDigits n = [digitChar n] := by
  cases n with
  | zero => rfl
  | succ m => simp only [natDigits, natDigitsAux, if_pos h]

theorem natDigits_ge (n : Nat) (h : 10 ≤ n) :
    natDigits n = natDigits (n / 10) ++ [digitChar (n % 10)] := by
  obtain ⟨m, rfl⟩ : ∃ m, n = m + 1 := ⟨n - 1, by omega⟩
  show natDigitsAux (m + 1) (m + 1) = _
  simp only [natDigitsAux, if_neg (by omega : ¬ m + 1 < 10)]
  have hd : (m + 1) / 10 ≤ m := by omega
  rw [natDigitsAux_fuel m m ((m + 1) / 10) hd hd]
  rfl

theorem digitChar_isDigit (d : Nat) (h : d < 10) : (digitChar d).isDigit = true := by
  interval_cases d <;> decide

theorem digitChar_toNat (d : Nat) (h : d < 10) : (digitChar d).toNat = 48 + d := by
  interval_cases d <;> decide

theorem mem_natDigits_isDigit (n : Nat) : ∀ c ∈ natDigits n, c.isDigit = true := by
  induction n using Nat.strong_induction_on with
  | _ n ih =>
    by_cases h10 : n < 10
    · rw [natDigits_lt n h10]
      intro c hc
      simp at hc
      subst hc
      exact digitChar_isDigit n h10
    · rw [natDigits_ge n (by omega)]
      intro c hc
      rw [List.mem_append] at hc
      rcases hc with hc | hc
      · exact ih (n / 10) (by omega) c hc
      · simp at hc
        subst hc
        exact digitChar_isDigit (n % 10) (by omega)

theorem natDigits_ne_nil (n : Nat) : natDigits n ≠ [] := by
  by_cases h10 : n < 10
  · rw [natDigits_lt n h10]; simp
  · rw [natDigits_ge n (by omega)]; simp

theorem isDigit_ne (c : Char) (h : c.isDigit = true) :
    c ≠ ' ' ∧ c ≠ ',' ∧ c ≠ '@' ∧ c ≠ '-' ∧ c ≠ '+' := by
  refine ⟨?_, ?_, ?_, ?_, ?_⟩ <;> · intro heq; rw [heq] at h; exact absurd h (by decide)

theorem digitsVal_append_digit (xs : Str) (d : Char) :
    digitsVal (xs ++ [d]) = 10 * digitsVal xs + (d.toNat - 48) := by
  simp [digitsVal, List.foldl_append]

theorem digitsVal_natDigits (n : Nat) : digitsVal (natDigits n) = n := by
  induction n using Nat.strong_induction_on with
  | _ n ih =>
    by_cases h10 : n < 10
    · rw [natDigits_lt n h10]
      show 10 * 0 + ((digitChar n).toNat - 48) = n
      rw [digitChar_toNat n h10]
      omega
    · rw [natDigits_ge n (by omega), digitsVal_append_digit, ih (n / 10) (by omega),
        digitChar_toNat (n % 10) (by omega)]
      omega

theorem takeWhile_eq_self (p : Char → Bool) (l : Str) (h : ∀ c ∈ l, p c = true) :
    l.takeWhile p = l := by
  induction l with
  | nil => rfl
  | cons x xs ih =>
    rw [List.takeWhile_cons, if_pos (h x (List.mem_cons_self x xs))]
    rw [ih (fun c hc => h c (List.mem_cons_of_mem x hc))]

theorem jsParseInt_natDigits (a : Nat) : jsParseInt (natDigits a) = some (a : Int) := by
  obtain ⟨c, rest, hnd⟩ : ∃ c rest, natDigits a = c :: rest := by
    cases h : natDigits a with
    | nil => exact absurd h (natDigits_ne_nil a)
    | cons c r => exact ⟨c, r, rfl⟩
  have hall := mem_natDigits_isDigit a
  have hcd : c.isDigit = true := hall c (by rw [hnd]; exact List.mem_cons_self c rest)
  obtain ⟨hs, _hcomma, _hat, hminus, hplus⟩ := isDigit_ne c hcd
  show (match (natDigits a).dropWhile (fun c => c = ' ') with
    | [] => none
    | c :: rest =>
      if c = '-' then (parseDigitsPrefix rest).map (fun n => -(n : Int))
      else if c = '+' then (parseDigitsPrefix rest).map (fun n => (n : Int))
      else (parseDigitsPrefix (c :: rest)).map (fun n => (n : Int))) = some (a : Int)
  rw [hnd, List.dropWhile_cons, if_neg (by simp [hs])]
  simp only [if_neg hminus, if_neg hplus]
  rw [← hnd]
  show (parseDigitsPrefix (natDigits a)).map (fun n => (n : Int)) = some (a : Int)
  simp [parseDigitsPrefix, takeWhile_eq_self _ _ hall,
    List.isEmpty_eq_false.mpr (natDigits_ne_nil a), digitsVal_natDigits a]

theorem splitChar_of_not_mem (c : Char) (s : Str) (h : ∀ x ∈ s, x ≠ c) : splitChar c s = [s] := by
  induction s with
  | nil => rfl
  | cons x xs ih =>
    have hx : x ≠ c := h x (List.mem_cons_self x xs)
    rw [splitChar, if_neg hx, ih (fun y hy => h y (List.mem_cons_of_mem x hy))]

theorem splitChar_append (c : Char) (s t : Str) (h : ∀ x ∈ s, x ≠ c) :
    splitChar c (s ++ c :: t) = s :: splitChar c t := by
  induction s with
  | nil => simp [splitChar]
  | cons x xs ih =>
    have hx : x ≠ c := h x (List.mem_cons_self x xs)
    rw [List.cons_append, splitChar, if_neg hx,
      ih (fun y hy => h y (List.mem_cons_of_mem x hy))]

theorem prefix_isPrefixOf (p l : Str) (t : Str) (h : l = p ++ t) : p.isPrefixOf l = true := by
  rw [List.isPrefixOf_iff_prefix]
  exact ⟨t, h.symm⟩

theorem indexOfAux_found (pat s : Str) (i : Nat) (h : pat.isPrefixOf s = true) :
    indexOfAux pat s i = some i := by
  cases s with
  | nil =>
    cases pat with
    | nil => rfl
    | cons p ps => simp [List.isPrefixOf] at h
  | cons x xs => simp [indexOfAux, h]

theorem indexOfAux_append (pat : Str) (u : Str) : ∀ (v : Str) (i : Nat),
    (∀ k, k < u.length → pat.isPrefixOf (List.drop k (u ++ v)) = false) →
    indexOfAux pat (u ++ v) i = indexOfAux pat v (i + u.length) := by
  induction u with
  | nil => intro v i _h; simp
  | cons x xs ih =>
    intro v i h
    have h0 : pat.isPrefixOf (x :: (xs ++ v)) = false := by
      have := h 0 (by simp)
      simpa using this
    rw [List.cons_append, indexOfAux, if_neg (by simp [h0])]
    rw [ih v (i + 1) (fun k hk => by
      have := h (k + 1) (by simp; omega)
      simpa using this)]
    congr 1
    simp
    omega

theorem spAtAt_prefix_at (w : Str) (h : (" @@").toList.isPrefixOf w = true) :
    w[1]? = some '@' := by
  rw [List.isPrefixOf_iff_prefix] at h
  obtain ⟨t, rfl⟩ := h
  rfl

theorem optCount_chars (o : Option Nat) : ∀ x ∈ optCount o, x = ',' ∨ x.isDigit = true := by
  cases o with
  | none => intro x hx; simp [optCount] at hx
  | some cv =>
    intro x hx
    simp only [optCount, List.mem_cons] at hx
    rcases hx with hx | hx
    · exact Or.inl hx
    · exact Or.inr (mem_natDigits_isDigit cv x hx)

theorem sideHeader_chars (s : Char) (n : Nat) (o : Option Nat) (hs1 : s ≠ ' ') (hs2 : s ≠ '@') :
    ∀ x ∈ s :: (natDigits n ++ optCount o), x ≠ ' ' ∧ x ≠ '@' := by
  intro x hx
  simp only [List.mem_cons, List.mem_append] at hx
  rcases hx with hx | hx | hx
  · subst hx; exact ⟨hs1, hs2⟩
  · have hd := mem_natDigits_isDigit n x hx
    obtain ⟨h1, _, h3, _, _⟩ := isDigit_ne x hd
    exact ⟨h1, h3⟩
  · rcases optCount_chars o x hx with hc | hd
    · subst hc; exact ⟨by decide, by decide⟩
    · obtain ⟨h1, _, h3, _, _⟩ := isDigit_ne x hd
      exact ⟨h1, h3⟩

theorem signDigits_no_comma (s : Char) (n : Nat) (hs : s ≠ ',') :
    ∀ x ∈ s :: natDigits n, x ≠ ',' := by
  intro x hx
  simp only [List.mem_cons] at hx
  rcases hx with hx | hx
  · subst hx; exact hs
  · exact (isDigit_ne x (mem_natDigits_isDigit n x hx)).2.1

theorem parseHunkHeaderLine_eval (line : Str) (e : Nat) (hh A B : Str)
    (h1 : jsIndexOf line (("@@ ").toList) 0 = 0)
    (h2 : jsIndexOf line ((" @@").toList) 1 = ((e : Nat) : Int))
    (he : 0 < e)
    (h3 : jsSliceNat line 3 e = hh)
    (h4 : splitChar ' ' hh = [A, B]) :
    parseHunkHeaderLine line =
      (if ("-").toList.isPrefixOf (headD (splitChar ',' A)) then
        if ("+").toList.isPrefixOf (headD (splitChar ',' B)) then
          Except.ok (jsParseInt ((headD (splitChar ',' A)).drop 1),
            jsParseInt ((headD (splitChar ',' B)).drop 1))
        else Except.error ("assert: startBString starts with +").toList
      else Except.error ("assert: startAString starts with -").toList) := by
  unfold parseHunkHeaderLine
  rw [h1]
  rw [if_neg (by decide)]
  have ht0 : ((0 : Int)).toNat + 1 = 1 := by decide
  rw [ht0, h2]
  rw [if_neg (by omega)]
  have hte : ((e : Nat) : Int).toNat = e := Int.toNat_natCast e
  rw [hte]
  have ht3 : ((0 : Int)).toNat + 3 = 3 := by decide
  rw [ht3, h3]
  simp only [h4]

theorem header_occ_free (hh : Str) (rest : Str) (hno_at : ∀ x ∈ hh, x ≠ '@') :
    ∀ k, k < ('@' :: ' ' :: hh).length →
      ((" @@").toList.isPrefixOf
        (List.drop k (('@' :: ' ' :: hh) ++ (' ' :: '@' :: '@' :: rest)))) = false := by
  intro k hk
  cases hx : ((" @@").toList.isPrefixOf
      (List.drop k (('@' :: ' ' :: hh) ++ (' ' :: '@' :: '@' :: rest)))) with
  | false => rfl
  | true =>
    exfalso
    have h1 := spAtAt_prefix_at _ hx
    rw [List.getElem?_drop] at h1
    rw [List.getElem?_append] at h1
    by_cases hk1 : k + 1 < ('@' :: ' ' :: hh).length
    · rw [if_pos hk1] at h1
      cases k with
      | zero => simp at h1
      | succ k2 =>
        have h2 : hh[k2]? = some '@' := by simpa using h1
        exact (hno_at '@' (List.getElem?_mem h2)) rfl
    · rw [if_neg hk1] at h1
      have hke : k + 1 - ('@' :: ' ' :: hh).length = 0 := by
        simp only [List.length_cons] at hk hk1 ⊢
        omega
      rw [hke] at h1
      simp at h1

theorem header_index_start (hh : Str) (rest : Str) :
    jsIndexOf (("@@ ").toList ++ hh ++ (" @@").toList ++ rest) (("@@ ").toList) 0 = 0 := by
  unfold jsIndexOf
  rw [List.drop_zero]
  rw [indexOfAux_found _ _ 0 (prefix_isPrefixOf _ _ (hh ++ (" @@").toList ++ rest) (by simp))]
  rfl

theorem header_index_end (hh : Str) (rest : Str) (hno_at : ∀ x ∈ hh, x ≠ '@') :
    jsIndexOf (("@@ ").toList ++ hh ++ (" @@").toList ++ rest) ((" @@").toList) 1 =
      ((3 + hh.length : Nat) : Int) := by
  unfold jsIndexOf
  have hdrop : (("@@ ").toList ++ hh ++ (" @@").toList ++ rest).drop 1 =
      ('@' :: ' ' :: hh) ++ (' ' :: '@' :: '@' :: rest) := by
    simp
  rw [hdrop]
  rw [indexOfAux_append _ _ _ 1 (header_occ_free hh rest hno_at)]
  rw [indexOfAux_found ((" @@").toList) (' ' :: '@' :: '@' :: rest)
    (1 + ('@' :: ' ' :: hh).length)
    (prefix_isPrefixOf ((" @@").toList) (' ' :: '@' :: '@' :: rest) rest rfl)]
  show ((1 + ('@' :: ' ' :: hh).length : Nat) : Int) = _
  simp only [List.length_cons]
  congr 1
  omega

theorem header_slice (hh rest : Str) :
    jsSliceNat (("@@ ").toList ++ hh ++ (" @@").toList ++ rest) 3 (3 + hh.length) = hh := by
  unfold jsSliceNat
  have h1 : ("@@ ").toList ++ hh ++ (" @@").toList ++ rest =
      (("@@ ").toList ++ hh) ++ ((" @@").toList ++ rest) := by simp
  rw [h1]
  have h2 : 3 + hh.length = (("@@ ").toList ++ hh).length := by simp; omega
  rw [h2, List.take_left]
  have h3 : (3 : Nat) = ("@@ ").toList.length := rfl
  rw [h3, List.drop_left]

/-- C4 amended: every hunk-header line of the well-formed shape
`@@ -n[,c] +n[,c] @@<anything>` parses successfully to its two numeric start
values, so a fatal abort can only come from a structurally malformed header
(missing delimiters, missing fields, or missing sign markers); the claim's
"every malformed header (including non-numeric start values) raises an
unrecoverable error" is refuted by the counterexample, where a non-numeric
start value parses to NaN and the stream continues. -/
theorem claim_C4_hunk_header_amended (a b : Nat) (c d : Option Nat) (rest : Str) :
    parseHunkHeaderLine (("@@ -").toList ++ natDigits a ++ optCount c ++ (" +").toList ++
        natDigits b ++ optCount d ++ (" @@").toList ++ rest) =
      Except.ok (some (a : Int), some (b : Int)) := by
  have hA := sideHeader_chars '-' a c (by decide) (by decide)
  have hB := sideHeader_chars '+' b d (by decide) (by decide)
  have hline : ("@@ -").toList ++ natDigits a ++ optCount c ++ (" +").toList ++
      natDigits b ++ optCount d ++ (" @@").toList ++ rest =
      ("@@ ").toList ++ (('-' :: (natDigits a ++ optCount c)) ++ ' ' ::
        ('+' :: (natDigits b ++ optCount d))) ++ (" @@").toList ++ rest := by
    simp
  rw [hline]
  have hno_at : ∀ x ∈ ('-' :: (natDigits a ++ optCount c)) ++ ' ' ::
      ('+' :: (natDigits b ++ optCount d)), x ≠ '@' := by
    intro x hx
    rw [List.mem_append] at hx
    rcases hx with hx | hx
    · exact (hA x hx).2
    · rcases List.mem_cons.mp hx with hx | hx
      · subst hx; decide
      · exact (hB x hx).2
  have hsplit : splitChar ' ' (('-' :: (natDigits a ++ optCount c)) ++ ' ' ::
      ('+' :: (natDigits b ++ optCount d))) =
      [('-' :: (natDigits a ++ optCount c)), ('+' :: (natDigits b ++ optCount d))] := by
    rw [splitChar_append ' ' _ _ (fun x hx => (hA x hx).1)]
    rw [splitChar_of_not_mem ' ' _ (fun x hx => (hB x hx).1)]
  rw [parseHunkHeaderLine_eval _
    (3 + (('-' :: (natDigits a ++ optCount c)) ++ ' ' ::
      ('+' :: (natDigits b ++ optCount d))).length)
    _ _ _ (header_index_start _ rest) (header_index_end _ rest hno_at) (by omega)
    (header_slice _ rest) hsplit]
  have hheadA : headD (splitChar ',' ('-' :: (natDigits a ++ optCount c))) =
      '-' :: natDigits a := by
    cases c with
    | none =>
      simp only [optCount, List.append_nil]
      rw [splitChar_of_not_mem ',' _ (signDigits_no_comma '-' a (by decide))]
      rfl
    | some cv =>
      have h1 : '-' :: (natDigits a ++ optCount (some cv)) =
          ('-' :: natDigits a) ++ ',' :: natDigits cv := by simp [optCount]
      rw [h1, splitChar_append ',' _ _ (signDigits_no_comma '-' a (by decide))]
      rfl
  have hheadB : headD (splitChar ',' ('+' :: (natDigits b ++ optCount d))) =
      '+' :: natDigits b := by
    cases d with
    | none =>
      simp only [optCount, List.append_nil]
      rw [splitChar_of_not_mem ',' _ (signDigits_no_comma '+' b (by decide))]
      rfl
    | some dv =>
      have h1 : '+' :: (natDigits b ++ optCount (some dv)) =
          ('+' :: natDigits b) ++ ',' :: natDigits dv := by simp [optCount]
      rw [h1, splitChar_append ',' _ _ (signDigits_no_comma '+' b (by decide))]
      rfl
  rw [hheadA, hheadB]
  rw [if_pos (prefix_isPrefixOf (("-").toList) ('-' :: natDigits a) (natDigits a) rfl)]
  rw [if_pos (prefix_isPrefixOf (("+").toList) ('+' :: natDigits b) (natDigits b) rfl)]
  rw [show ('-' :: natDigits a).drop 1 = natDigits a from rfl]
  rw [show ('+' :: natDigits b).drop 1 = natDigits b from rfl]
  rw [jsParseInt_natDigits a, jsParseInt_natDigits b]

/-- C4 counterexample: the hunk header `@@ -x,2 +1,2 @@` has a malformed
(non-numeric) left range, yet parsing does not raise — `parseInt` yields NaN
(`none`) — and processing the line as a stream succeeds instead of aborting. -/
theorem claim_C4_counterexample :
    parseHunkHeaderLine (("@@ -x,2 +1,2 @@").toList) = Except.ok ((none : JSNum), some 1) ∧
      (processLines cfgA plainTheme [("@@ -x,2 +1,2 @@").toList]).isOk = true :=
  ⟨rfl, rfl⟩

theorem natDigits_len_mono (k : Nat) : ∀ m : Nat, m ≤ k →
    (natDigits m).length ≤ (natDigits k).length := by
  induction k using Nat.strong_induction_on with
  | _ k ih =>
    intro m hm
    by_cases hk10 : k < 10
    · rw [natDigits_lt k hk10, natDigits_lt m (by omega)]
      simp
    · rw [natDigits_ge k (by omega)]
      by_cases hm10 : m < 10
      · rw [natDigits_lt m hm10]
        have hne := natDigits_ne_nil (k / 10)
        cases h : natDigits (k / 10) with
        | nil => exact absurd h hne
        | cons x xs => simp
      · rw [natDigits_ge m (by omega)]
        have h1 : m / 10 ≤ k / 10 := Nat.div_le_div_right hm
        have h2 : k / 10 < k := Nat.div_lt_self (by omega) (by omega)
        simp only [List.length_append, List.length_cons, List.length_nil]
        have := ih (k / 10) h2 (m / 10) h1
        omega

theorem intRepr_nonneg (n : Int) (h : 0 ≤ n) : intRepr n = natDigits n.toNat := by
  rw [intRepr, if_neg (by omega)]

theorem NumsOk_mono (cfg : Config) (a : Int) (k k' : Nat) (hk : k' ≤ k)
    (h : NumsOk cfg a k) : NumsOk cfg a k' := by
  obtain ⟨h0, h1⟩ := h
  exact ⟨h0, fun n hn1 hn2 => h1 n hn1 (by omega)⟩

theorem NumsOk_shift (cfg : Config) (a : Int) (m k : Nat)
    (h : NumsOk cfg a (m + k)) : NumsOk cfg (a + m) k := by
  obtain ⟨h0, h1⟩ := h
  refine ⟨by omega, fun n hn1 hn2 => h1 n (by omega) (by push_cast; omega)⟩

theorem half_width_eq (cfg : Config) (hT : 0 ≤ LINE_TEXT_WIDTH cfg) :
    cfg.LINE_NUMBER_WIDTH + 1 + cfg.LINE_PREFIX_WIDTH + 1 + (LINE_TEXT_WIDTH cfg).toNat =
      LINE_WIDTH cfg := by
  unfold LINE_TEXT_WIDTH at hT ⊢
  omega

theorem lineColor_plain (h : Option Half) : lineColorForLineHalf plainTheme h = id := by
  cases h with
  | none => rfl
  | some hf =>
    rw [lineColorForLineHalf]
    split_ifs <;> rfl

theorem lineNoColor_plain (h : Option Half) : lineNoColorForLineHalf plainTheme h = id := by
  cases h with
  | none => rfl
  | some hf =>
    rw [lineNoColorForLineHalf]
    split_ifs <;> rfl

theorem formatHunkLineHalf_id_length (cfg : Config) (hT : 0 ≤ LINE_TEXT_WIDTH cfg)
    (n p t : Str) (hn : n.length ≤ cfg.LINE_NUMBER_WIDTH)
    (hp : p.length ≤ cfg.LINE_PREFIX_WIDTH) (ht : t.length ≤ (LINE_TEXT_WIDTH cfg).toNat) :
    (formatHunkLineHalf cfg n p t id id).length = LINE_WIDTH cfg := by
  rw [← half_width_eq cfg hT]
  simp only [formatHunkLineHalf, id_eq, List.append_assoc, List.length_append,
    List.length_cons, length_jsPadStart, length_jsPadEnd]
  omega

theorem formatAndFit_plain (cfg : Config) (hw : cfg.WRAP_LINES = false) (lh : Option Half) :
    formatAndFitHunkLineHalf cfg lh id id =
      [formatHunkLineHalf cfg ((lh.map Half.number).getD [])
        ((lh.map Half.linePrefix).getD [])
        (jsSliceTo ((lh.map Half.text).getD []) (LINE_TEXT_WIDTH cfg)) id id] := by
  unfold formatAndFitHunkLineHalf fitTextToWidth
  rw [hw]
  simp [withFirstSegment]

theorem halfOk_fitted_length (cfg : Config) (hT : 0 ≤ LINE_TEXT_WIDTH cfg)
    (lh : Option Half) (hok : HalfOk cfg lh) :
    (formatHunkLineHalf cfg ((lh.map Half.number).getD [])
      ((lh.map Half.linePrefix).getD [])
      (jsSliceTo ((lh.map Half.text).getD []) (LINE_TEXT_WIDTH cfg)) id id).length =
      LINE_WIDTH cfg := by
  have hslice : (jsSliceTo ((lh.map Half.text).getD []) (LINE_TEXT_WIDTH cfg)).length ≤
      (LINE_TEXT_WIDTH cfg).toNat := by
    rw [jsSliceTo_of_nonneg _ _ hT]
    simp
  cases lh with
  | none =>
    apply formatHunkLineHalf_id_length cfg hT _ _ _ (by simp) (by simp) hslice
  | some hf =>
    obtain ⟨h1, h2⟩ := hok
    apply formatHunkLineHalf_id_length cfg hT _ _ _ (by simpa using h1) (by simpa using h2)
      hslice

theorem formatHunkLine_plain_length (cfg : Config)
    (hS : cfg.SCREEN_WIDTH = 2 * LINE_WIDTH cfg) (hT : 0 ≤ LINE_TEXT_WIDTH cfg)
    (hw : cfg.WRAP_LINES = false) (ha hb : Option Half)
    (hoa : HalfOk cfg ha) (hob : HalfOk cfg hb) :
    ∀ row ∈ formatHunkLine cfg plainTheme ha hb, row.length = cfg.SCREEN_WIDTH := by
  intro row hrow
  have hExpand : formatHunkLine cfg plainTheme ha hb =
      joinRows (BLANK_LINE cfg) (BLANK_LINE cfg)
        (formatAndFitHunkLineHalf cfg ha id id) (formatAndFitHunkLineHalf cfg hb id id) := by
    unfold formatHunkLine
    rw [lineColor_plain, lineNoColor_plain, lineColor_plain, lineNoColor_plain]
    rfl
  rw [hExpand, formatAndFit_plain cfg hw ha, formatAndFit_plain cfg hw hb] at hrow
  simp only [joinRows, List.map_nil] at hrow
  rw [List.mem_singleton] at hrow
  subst hrow
  rw [List.length_append, halfOk_fitted_length cfg hT ha hoa,
    halfOk_fitted_length cfg hT hb hob, hS]
  omega

theorem mkHalf_ok (cfg : Config) (hP : 1 ≤ cfg.LINE_PREFIX_WIDTH) (n : Int) (line : Str)
    (hn : (intRepr n).length ≤ cfg.LINE_NUMBER_WIDTH) :
    HalfOk cfg (some (mkHalf (some n) line)) := by
  refine ⟨hn, ?_⟩
  have := List.length_take 1 line
  simp only [mkHalf]
  omega

theorem flushRight_halves (cfg : Config) (hP : 1 ≤ cfg.LINE_PREFIX_WIDTH) (B : List Str) :
    ∀ (b : Int), NumsOk cfg b B.length →
      ∀ p ∈ (flushRight (some b) B).1, HalfOk cfg p.1 ∧ HalfOk cfg p.2 := by
  induction B with
  | nil => intro b _ p hp; simp [flushRight] at hp
  | cons x xs ih =>
    intro b hb p hp
    have hinc : jsInc (some b) = some (b + 1) := by simp [jsInc]
    simp only [flushRight, hinc, List.mem_cons] at hp
    rcases hp with hp | hp
    · subst hp
      refine ⟨trivial, mkHalf_ok cfg hP b x (hb.2 b le_rfl (by simp only [List.length_cons]; push_cast; omega))⟩
    · exact ih (b + 1) (NumsOk_shift cfg b 1 xs.length (by simpa [Nat.add_comm] using hb)) p hp

theorem flushPairs_halves (cfg : Config) (hP : 1 ≤ cfg.LINE_PREFIX_WIDTH) (A : List Str) :
    ∀ (B : List Str) (a b : Int), NumsOk cfg a A.length → NumsOk cfg b B.length →
      ∀ p ∈ (flushPairs A B (some a) (some b)).1, HalfOk cfg p.1 ∧ HalfOk cfg p.2 := by
  induction A with
  | nil =>
    intro B a b _ hb p hp
    simp only [flushPairs] at hp
    exact flushRight_halves cfg hP B b hb p hp
  | cons x xs ih =>
    intro B a b ha hb p hp
    have hincA : jsInc (some a) = some (a + 1) := by simp [jsInc]
    have haShift : NumsOk cfg (a + 1) xs.length :=
      NumsOk_shift cfg a 1 xs.length (by simpa [Nat.add_comm] using ha)
    have haSelf : (intRepr a).length ≤ cfg.LINE_NUMBER_WIDTH :=
      ha.2 a le_rfl (by simp only [List.length_cons]; push_cast; omega)
    cases B with
    | nil =>
      simp only [flushPairs, hincA, List.mem_cons] at hp
      rcases hp with hp | hp
      · subst hp
        exact ⟨mkHalf_ok cfg hP a x haSelf, trivial⟩
      · exact ih [] (a + 1) b haShift hb p hp
    | cons y ys =>
      have hincB : jsInc (some b) = some (b + 1) := by simp [jsInc]
      have hbShift : NumsOk cfg (b + 1) ys.length :=
        NumsOk_shift cfg b 1 ys.length (by simpa [Nat.add_comm] using hb)
      have hbSelf : (intRepr b).length ≤ cfg.LINE_NUMBER_WIDTH :=
        hb.2 b le_rfl (by simp only [List.length_cons]; push_cast; omega)
      simp only [flushPairs, hincA, hincB, List.mem_cons] at hp
      rcases hp with hp | hp
      · subst hp
        exact ⟨mkHalf_ok cfg hP a x haSelf, mkHalf_ok cfg hP b y hbSelf⟩
      · exact ih ys (a + 1) (b + 1) haShift hbShift p hp

theorem hunkAccum_halves (cfg : Config) (hP : 1 ≤ cfg.LINE_PREFIX_WIDTH) (fa fb : Str)
    (ls : List Str) : ∀ (A B : List Str) (a b : Int),
    NumsOk cfg a (A.length + ls.length) → NumsOk cfg b (B.length + ls.length) →
    ∀ p ∈ hunkAccum fa fb ls A B (some a) (some b), HalfOk cfg p.1 ∧ HalfOk cfg p.2 := by
  induction ls with
  | nil =>
    intro A B a b ha hb p hp
    simp only [hunkAccum] at hp
    exact flushPairs_halves cfg hP A B a b
      (NumsOk_mono cfg a _ _ (by simp) ha) (NumsOk_mono cfg b _ _ (by simp) hb) p hp
  | cons l rest ih =>
    intro A B a b ha hb p hp
    cases hdel : (("-").toList.isPrefixOf l) with
    | true =>
      simp only [hunkAccum, hdel, if_true] at hp
      refine ih (A ++ [l]) B a b ?_ ?_ p hp
      · exact NumsOk_mono cfg a _ _ (by simp; omega) ha
      · exact NumsOk_mono cfg b _ _ (by simp) hb
    | false =>
      cases hins : (("+").toList.isPrefixOf l) with
      | true =>
        simp only [hunkAccum, hdel, hins, Bool.false_eq_true, if_false, if_true] at hp
        refine ih A (B ++ [l]) a b ?_ ?_ p hp
        · exact NumsOk_mono cfg a _ _ (by simp) ha
        · exact NumsOk_mono cfg b _ _ (by simp; omega) hb
      | false =>
        obtain ⟨_, _, hc⟩ := flushPairs_spec A B a b
        have hc1 : (flushPairs A B (some a) (some b)).2.1 = some (a + A.length) := by rw [hc]
        have hc2 : (flushPairs A B (some a) (some b)).2.2 = some (b + B.length) := by rw [hc]
        simp only [hunkAccum, hdel, hins, Bool.false_eq_true, if_false, hc1, hc2,
          List.mem_append] at hp
        rcases hp with hp | hp
        · exact flushPairs_halves cfg hP A B a b
            (NumsOk_mono cfg a _ _ (by simp) ha) (NumsOk_mono cfg b _ _ (by simp) hb) p hp
        · refine ih _ _ (a + A.length) (b + B.length) ?_ ?_ p hp
          · refine NumsOk_mono cfg _ _ _ ?_ (NumsOk_shift cfg a A.length (1 + rest.length)
              (NumsOk_mono cfg a _ _ (by simp; omega) ha))
            split <;> simp
          · refine NumsOk_mono cfg _ _ _ ?_ (NumsOk_shift cfg b B.length (1 + rest.length)
              (NumsOk_mono cfg b _ _ (by simp; omega) hb))
            split <;> simp

theorem formatHunkSideBySide_plain_length (cfg : Config)
    (hS : cfg.SCREEN_WIDTH = 2 * LINE_WIDTH cfg) (hP : 1 ≤ cfg.LINE_PREFIX_WIDTH)
    (hT : 0 ≤ LINE_TEXT_WIDTH cfg) (hw : cfg.WRAP_LINES = false)
    (hdr : Str) (lines : List Str) (a b : Int) (fa fb : Str)
    (hna : NumsOk cfg a lines.length) (hnb : NumsOk cfg b lines.length) :
    ∀ l ∈ formatHunkSideBySide cfg plainTheme hdr lines (some a) (some b) fa fb,
      l.length = cfg.SCREEN_WIDTH := by
  intro l hl
  unfold formatHunkSideBySide at hl
  rw [List.mem_append] at hl
  rcases hl with hl | hl
  · unfold fitTextToWidth at hl
    rw [hw] at hl
    simp only [Bool.false_eq_true, if_false, List.map_cons, List.map_nil,
      List.mem_singleton] at hl
    subst hl
    show (jsPadEnd (jsSliceTo hdr (cfg.SCREEN_WIDTH : Int)) (cfg.SCREEN_WIDTH : Int)).length = _
    rw [length_jsPadEnd]
    have hsl : (jsSliceTo hdr (cfg.SCREEN_WIDTH : Int)).length ≤ cfg.SCREEN_WIDTH := by
      rw [jsSliceTo_of_nonneg _ _ (by positivity)]
      simp
    simp only [Int.toNat_natCast]
    omega
  · rw [List.mem_flatMap] at hl
    obtain ⟨p, hp, hlp⟩ := hl
    have hpok := hunkAccum_halves cfg hP fa fb lines [] [] a b
      (by simpa using hna) (by simpa using hnb) p hp
    exact formatHunkLine_plain_length cfg hS hT hw p.1 p.2 hpok.1 hpok.2 l hlp

theorem separator_plain_length (cfg : Config) :
    (HORIZONTAL_SEPARATOR cfg plainTheme).length = cfg.SCREEN_WIDTH := by
  simp [HORIZONTAL_SEPARATOR, plainTheme]

theorem formatFileName_plain_length (cfg : Config) (h4 : 4 ≤ cfg.SCREEN_WIDTH)
    (fa fb : Str) (hfa : fa.length ≤ nameBound cfg) (hfb : fb.length ≤ nameBound cfg) :
    ∀ l ∈ formatFileName cfg plainTheme fa fb, l.length = cfg.SCREEN_WIDTH := by
  have hnb1 : nameBound cfg ≤ cfg.SCREEN_WIDTH - 4 := by
    unfold nameBound
    omega
  intro l hl
  unfold formatFileName at hl
  simp only [List.mem_cons, List.not_mem_nil, or_false] at hl
  have hbody : ∀ label : Str, label.length ≤ cfg.SCREEN_WIDTH - 4 →
      ∀ ind : Str, ind.length = 2 →
      (([' '] : Str) ++ ind ++ (' ' :: jsPadEnd label ((cfg.SCREEN_WIDTH : Int) - 2 - 2))).length =
        cfg.SCREEN_WIDTH := by
    intro label hlabel ind hind
    have ht : ((cfg.SCREEN_WIDTH : Int) - 2 - 2).toNat = cfg.SCREEN_WIDTH - 4 := by omega
    simp [length_jsPadEnd, hind, ht]
    omega
  rcases hl with hl | hl | hl
  · rw [hl]; exact separator_plain_length cfg
  · subst hl
    by_cases h1 : fa.isEmpty
    · rw [if_pos h1]
      exact hbody fb (le_trans hfb hnb1) _ rfl
    · rw [if_neg h1]
      by_cases h2 : fb.isEmpty
      · rw [if_pos h2]
        exact hbody fa (le_trans hfa hnb1) _ rfl
      · rw [if_neg h2]
        by_cases h3 : fa = fb
        · rw [if_pos h3]
          exact hbody fa (le_trans hfa hnb1) _ rfl
        · rw [if_neg h3]
          refine hbody (fa ++ (" -> ").toList ++ fb) ?_ _ rfl
          have hfa1 : 1 ≤ fa.length := by
            cases fa with
            | nil => simp at h1
            | cons x xs => simp
          have hfb1 : 1 ≤ fb.length := by
            cases fb with
            | nil => simp at h2
            | cons x xs => simp
          have harrow : (" -> ").toList.length = 4 := rfl
          have hW8 : 8 ≤ cfg.SCREEN_WIDTH := by
        
            by_contra hlt
            have h0 : nameBound cfg = 0 := by unfold nameBound; omega
            omega
          have hsum : 2 * nameBound cfg + 4 ≤ cfg.SCREEN_WIDTH - 4 := by
            unfold nameBound
            omega
          simp only [List.length_append, harrow]
          omega
  · rw [hl]; exact separator_plain_length cfg

theorem formatCommitLine_plain_length (cfg : Config) (line : Str)
    (hlen : line.length ≤ cfg.SCREEN_WIDTH)
    (hlabel : jsFirstWord line ∈ labelWords → (jsFirstWord line).length < line.length) :
    (formatCommitLine cfg plainTheme line).length = cfg.SCREEN_WIDTH := by
  unfold formatCommitLine
  by_cases h1 : jsFirstWord line = ("commit").toList
  · rw [if_pos h1]
    have hl : (jsFirstWord line).length < line.length := hlabel (by rw [h1]; simp [labelWords])
    show (jsFirstWord line ++ ' ' :: (line.drop ((jsFirstWord line).length + 1)) ++
      jsSpaces ((cfg.SCREEN_WIDTH : Int) - line.length)).length = cfg.SCREEN_WIDTH
    simp only [List.length_append, List.length_cons, List.length_drop, jsSpaces,
      List.length_replicate]
    omega
  · rw [if_neg h1]
    by_cases h2 : jsFirstWord line = ("Author:").toList
    · rw [if_pos h2]
      have hl : (jsFirstWord line).length < line.length := hlabel (by rw [h2]; simp [labelWords])
      show (jsFirstWord line ++ ' ' :: (line.drop ((jsFirstWord line).length + 1)) ++
        jsSpaces ((cfg.SCREEN_WIDTH : Int) - line.length)).length = cfg.SCREEN_WIDTH
      simp only [List.length_append, List.length_cons, List.length_drop, jsSpaces,
        List.length_replicate]
      omega
    · rw [if_neg h2]
      by_cases h3 : jsFirstWord line = ("Date:").toList
      · rw [if_pos h3]
        have hl : (jsFirstWord line).length < line.length :=
          hlabel (by rw [h3]; simp [labelWords])
        show (jsFirstWord line ++ ' ' :: (line.drop ((jsFirstWord line).length + 1)) ++
          jsSpaces ((cfg.SCREEN_WIDTH : Int) - line.length)).length = cfg.SCREEN_WIDTH
        simp only [List.length_append, List.length_cons, List.length_drop, jsSpaces,
          List.length_replicate]
        omega
      · rw [if_neg h3]
        show (jsPadEnd line (cfg.SCREEN_WIDTH : Int)).length = cfg.SCREEN_WIDTH
        rw [length_jsPadEnd]
        simp only [Int.toNat_natCast]
        omega

theorem lineOk_unpack (cfg : Config) (N : Nat) (line : Str) (h : lineOk cfg N line = true) :
    line.length ≤ cfg.SCREEN_WIDTH ∧
    (jsFirstWord line ∈ labelWords → (jsFirstWord line).length < line.length) ∧
    (("--- a/").toList.isPrefixOf line = true → (line.drop 6).length ≤ nameBound cfg) ∧
    (("+++ b/").toList.isPrefixOf line = true → (line.drop 6).length ≤ nameBound cfg) ∧
    (("rename from ").toList.isPrefixOf line = true → (line.drop 12).length ≤ nameBound cfg) ∧
    (("rename to ").toList.isPrefixOf line = true → (line.drop 10).length ≤ nameBound cfg) ∧
    (∀ g1 g2, binaryFilesMatch line = some (g1, g2) →
      (g1.getD []).length ≤ nameBound cfg ∧ (g2.getD []).length ≤ nameBound cfg) ∧
    (∀ sa sb, parseHunkHeaderLine line = Except.ok (sa, sb) →
      ("@@").toList.isPrefixOf line = true →
      (∃ a : Int, sa = some a ∧ 0 ≤ a ∧
        (natDigits (a.toNat + N)).length ≤ cfg.LINE_NUMBER_WIDTH) ∧
      (∃ b : Int, sb = some b ∧ 0 ≤ b ∧
        (natDigits (b.toNat + N)).length ≤ cfg.LINE_NUMBER_WIDTH)) := by
  rw [lineOk] at h
  rw [Bool.and_eq_true] at h
  obtain ⟨h17, h8⟩ := h
  rw [Bool.and_eq_true] at h17
  obtain ⟨h16, h7⟩ := h17
  rw [Bool.and_eq_true] at h16
  obtain ⟨h15, h6⟩ := h16
  rw [Bool.and_eq_true] at h15
  obtain ⟨h14, h5⟩ := h15
  rw [Bool.and_eq_true] at h14
  obtain ⟨h13, h4⟩ := h14
  rw [Bool.and_eq_true] at h13
  obtain ⟨h12, h3⟩ := h13
  rw [Bool.and_eq_true] at h12
  obtain ⟨h1, h2⟩ := h12
  refine ⟨of_decide_eq_true h1, ?_, ?_, ?_, ?_, ?_, ?_, ?_⟩
  · intro hmem
    rw [if_pos hmem] at h2
    exact of_decide_eq_true h2
  · intro hpre
    rw [if_pos hpre] at h3
    exact of_decide_eq_true h3
  · intro hpre
    rw [if_pos hpre] at h4
    exact of_decide_eq_true h4
  · intro hpre
    rw [if_pos hpre] at h5
    exact of_decide_eq_true h5
  · intro hpre
    rw [if_pos hpre] at h6
    exact of_decide_eq_true h6
  · intro g1 g2 heq
    rw [heq] at h7
    rw [Bool.and_eq_true] at h7
    exact ⟨of_decide_eq_true h7.1, of_decide_eq_true h7.2⟩
  · intro sa sb hparse hpre
    rw [if_pos hpre, hparse] at h8
    rw [Bool.and_eq_true] at h8
    obtain ⟨ha, hb⟩ := h8
    constructor
    · cases sa with
      | none => simp at ha
      | some a =>
        rw [Bool.and_eq_true] at ha
        exact ⟨a, rfl, of_decide_eq_true ha.1, of_decide_eq_true ha.2⟩
    · cases sb with
      | none => simp at hb
      | some b =>
        rw [Bool.and_eq_true] at hb
        exact ⟨b, rfl, of_decide_eq_true hb.1, of_decide_eq_true hb.2⟩

theorem NumsOk_of_digits (cfg : Config) (a : Int) (k : Nat) (ha : 0 ≤ a)
    (hd : (natDigits (a.toNat + k)).length ≤ cfg.LINE_NUMBER_WIDTH) : NumsOk cfg a k := by
  refine ⟨ha, fun n hn1 hn2 => ?_⟩
  rw [intRepr_nonneg n (by omega)]
  exact le_trans (natDigits_len_mono (a.toNat + k) n.toNat (by omega)) hd

theorem diffDispatch_fields (st : MachineState) (line : Str) :
    (diffDispatch st line).state = st.state ∧
      (diffDispatch st line).startA = st.startA ∧
      (diffDispatch st line).startB = st.startB ∧
      (diffDispatch st line).hunkLines = st.hunkLines := by
  unfold diffDispatch
  split_ifs <;> first
  | exact ⟨rfl, rfl, rfl, rfl⟩
  | (cases hbm : binaryFilesMatch line with
     | none => exact ⟨rfl, rfl, rfl, rfl⟩
     | some g =>
       cases g with
       | mk g1 g2 => exact ⟨rfl, rfl, rfl, rfl⟩)

theorem diffDispatch_names (cfg : Config) (N : Nat) (st : MachineState) (line : Str)
    (hline : lineOk cfg N line = true)
    (ha : st.fileNameA.length ≤ nameBound cfg) (hb : st.fileNameB.length ≤ nameBound cfg) :
    (diffDispatch st line).fileNameA.length ≤ nameBound cfg ∧
      (diffDispatch st line).fileNameB.length ≤ nameBound cfg := by
  obtain ⟨_, _, hm1, hm2, hm3, hm4, hbin, _⟩ := lineOk_unpack cfg N line hline
  unfold diffDispatch
  split_ifs with p1 p2 p3 p4 p5
  · exact ⟨hm1 p1, hb⟩
  · exact ⟨ha, hm2 p2⟩
  · exact ⟨hm3 p3, hb⟩
  · exact ⟨ha, hm4 p4⟩
  · cases hbm : binaryFilesMatch line with
    | none => exact ⟨ha, hb⟩
    | some g =>
      cases g with
      | mk g1 g2 =>
        have hgb := hbin g1 g2 hbm
        exact ⟨hgb.1, hgb.2⟩
  · exact ⟨ha, hb⟩

theorem stepLine_length (cfg : Config)
    (hS : cfg.SCREEN_WIDTH = 2 * LINE_WIDTH cfg) (hP : 1 ≤ cfg.LINE_PREFIX_WIDTH)
    (hT : 0 ≤ LINE_TEXT_WIDTH cfg) (h4 : 4 ≤ cfg.SCREEN_WIDTH) (hw : cfg.WRAP_LINES = false)
    (N R : Nat) (hRN : R ≤ N) (st : MachineState) (line : Str)
    (hline : lineOk cfg N line = true) (hst : StateOk cfg st (R + 1)) :
    ∀ st1 out1, stepLine cfg plainTheme st line = Except.ok (st1, out1) →
      (∀ l ∈ out1, l.length = cfg.SCREEN_WIDTH) ∧ StateOk cfg st1 R := by
  obtain ⟨hlen, hlab, _, _, _, _, _, hatat⟩ := lineOk_unpack cfg N line hline
  obtain ⟨hfa, hfb, hhunk, hempty⟩ := hst
  have hbanner := formatFileName_plain_length cfg h4 st.fileNameA st.fileNameB hfa hfb
  have hyield : st.state = ParserState.hunk →
      ∀ l ∈ yieldHunkOut cfg plainTheme st, l.length = cfg.SCREEN_WIDTH := by
    intro hsh l hl
    obtain ⟨a, b, hsa, hsb, hna, hnb⟩ := hhunk hsh
    unfold yieldHunkOut at hl
    rw [hsa, hsb] at hl
    exact formatHunkSideBySide_plain_length cfg hS hP hT hw _ _ a b _ _
      (NumsOk_mono cfg a _ _ (by omega) hna) (NumsOk_mono cfg b _ _ (by omega) hnb) l hl
  have hcommitLen := formatCommitLine_plain_length cfg line hlen hlab
  have hLinesReset : ∀ hyp : True, (if st.state = ParserState.hunk then ([] : List Str)
      else st.hunkLines) = [] := by
    intro _
    by_cases hsh : st.state = ParserState.hunk
    · simp [hsh]
    · simp only [if_neg hsh]
      exact hempty hsh
  intro st1 out1 hstep
  by_cases hc : ("commit ").toList.isPrefixOf line = true
  · rw [stepLine, if_pos hc] at hstep
    rw [Except.ok.injEq, Prod.mk.injEq] at hstep
    obtain ⟨hst1, hout1⟩ := hstep
    subst hst1
    subst hout1
    constructor
    · intro l hl
      rw [List.mem_append] at hl
      rcases hl with hl | hl
      · cases hState : st.state with
        | commit => simp only [hState] at hl; simp at hl
        | diff => simp only [hState] at hl; exact hbanner l hl
        | hunk =>
          simp only [hState] at hl
          rcases List.mem_append.mp hl with hl | hl
          · exact hyield hState l hl
          · rw [List.mem_singleton] at hl
            rw [hl]
            exact separator_plain_length cfg
      · rw [List.mem_singleton] at hl
        rw [hl]
        exact hcommitLen
    · refine ⟨hfa, hfb, ?_, ?_⟩
      · intro hcontra
        simp at hcontra
      · intro _
        exact hLinesReset trivial
  · by_cases hd : ("diff --git").toList.isPrefixOf line = true
    · rw [stepLine, if_neg hc, if_pos hd] at hstep
      rw [Except.ok.injEq, Prod.mk.injEq] at hstep
      obtain ⟨hst1, hout1⟩ := hstep
      subst hst1
      subst hout1
      constructor
      · intro l hl
        cases hState : st.state with
        | commit => simp only [hState] at hl; simp at hl
        | diff => simp only [hState] at hl; exact hbanner l hl
        | hunk => simp only [hState] at hl; exact hyield hState l hl
      · refine ⟨by simp, by simp, ?_, ?_⟩
        · intro hcontra
          simp at hcontra
        · intro _
          exact hLinesReset trivial
    · by_cases ha : ("@@").toList.isPrefixOf line = true
      · rw [stepLine, if_neg hc, if_neg hd, if_pos ha] at hstep
        cases hparse : parseHunkHeaderLine line with
        | error e => rw [hparse] at hstep; cases hstep
        | ok sb2 =>
          cases sb2 with
          | mk sa sb =>
            rw [hparse] at hstep
            rw [Except.ok.injEq, Prod.mk.injEq] at hstep
            obtain ⟨hst1, hout1⟩ := hstep
            subst hst1
            subst hout1
            obtain ⟨⟨a, hsa, ha0, hadig⟩, ⟨b, hsb, hb0, hbdig⟩⟩ := hatat sa sb hparse ha
            constructor
            · intro l hl
              cases hState : st.state with
              | commit => simp only [hState] at hl; simp at hl
              | diff => simp only [hState] at hl; exact hbanner l hl
              | hunk => simp only [hState] at hl; exact hyield hState l hl
            · refine ⟨hfa, hfb, ?_, ?_⟩
              · intro _
                refine ⟨a, b, by simp [hsa], by simp [hsb], ?_, ?_⟩
                · refine NumsOk_of_digits cfg a _ ha0 ?_
                  refine le_trans (natDigits_len_mono _ _ ?_) hadig
                  have := hLinesReset trivial
                  simp only [this, List.length_nil]
                  omega
                · refine NumsOk_of_digits cfg b _ hb0 ?_
                  refine le_trans (natDigits_len_mono _ _ ?_) hbdig
                  have := hLinesReset trivial
                  simp only [this, List.length_nil]
                  omega
              · intro hcontra
                simp at hcontra
      · rw [stepLine, if_neg hc, if_neg hd, if_neg ha]
          at hstep
        cases hState : st.state with
        | commit =>
          rw [hState] at hstep
          rw [Except.ok.injEq, Prod.mk.injEq] at hstep
          obtain ⟨hst1, hout1⟩ := hstep
          subst hst1
          subst hout1
          constructor
          · intro l hl
            rw [List.mem_singleton] at hl
            rw [hl]
            exact hcommitLen
          · refine ⟨hfa, hfb, ?_, ?_⟩
            · intro hcontra
              rw [hState] at hcontra
              simp at hcontra
            · intro _
              exact hempty (by rw [hState]; simp)
        | diff =>
          rw [hState] at hstep
          rw [Except.ok.injEq, Prod.mk.injEq] at hstep
          obtain ⟨hst1, hout1⟩ := hstep
          subst hst1
          subst hout1
          obtain ⟨hdn1, hdn2⟩ := diffDispatch_names cfg N st line hline hfa hfb
          obtain ⟨hdf1, hdf2, hdf3, hdf4⟩ := diffDispatch_fields st line
          constructor
          · intro l hl
            simp at hl
          · refine ⟨hdn1, hdn2, ?_, ?_⟩
            · intro hcontra
              rw [hdf1, hState] at hcontra
              simp at hcontra
            · intro _
              rw [hdf4]
              exact hempty (by rw [hState]; simp)
        | hunk =>
          rw [hState] at hstep
          rw [Except.ok.injEq, Prod.mk.injEq] at hstep
          obtain ⟨hst1, hout1⟩ := hstep
          subst hst1
          subst hout1
          constructor
          · intro l hl
            simp at hl
          · refine ⟨hfa, hfb, ?_, ?_⟩
            · intro _
              obtain ⟨a, b, hsa, hsb, hna, hnb⟩ := hhunk hState
              refine ⟨a, b, hsa, hsb, ?_, ?_⟩
              · refine NumsOk_mono cfg a _ _ ?_ hna
                simp
                omega
              · refine NumsOk_mono cfg b _ _ ?_ hnb
                simp
                omega
            · intro hcontra
              exact absurd rfl hcontra

theorem processFrom_length (cfg : Config)
    (hS : cfg.SCREEN_WIDTH = 2 * LINE_WIDTH cfg) (hP : 1 ≤ cfg.LINE_PREFIX_WIDTH)
    (hT : 0 ≤ LINE_TEXT_WIDTH cfg) (h4 : 4 ≤ cfg.SCREEN_WIDTH) (hw : cfg.WRAP_LINES = false)
    (N : Nat) : ∀ (input : List Str) (st : MachineState), input.length ≤ N →
    (∀ l ∈ input, lineOk cfg N l = true) → StateOk cfg st input.length →
    ∀ out, processFrom cfg plainTheme st input = Except.ok out →
    ∀ l ∈ out, l.length = cfg.SCREEN_WIDTH := by
  intro input
  induction input with
  | nil =>
    intro st _ _ hst out hout l hl
    simp only [processFrom, Except.ok.injEq] at hout
    subst hout
    obtain ⟨hfa, hfb, hhunk, _⟩ := hst
    unfold finalFlush at hl
    cases hState : st.state with
    | commit => simp only [hState] at hl; simp at hl
    | diff =>
      simp only [hState] at hl
      exact formatFileName_plain_length cfg h4 _ _ hfa hfb l hl
    | hunk =>
      simp only [hState] at hl
      obtain ⟨a, b, hsa, hsb, hna, hnb⟩ := hhunk hState
      unfold yieldHunkOut at hl
      rw [hsa, hsb] at hl
      exact formatHunkSideBySide_plain_length cfg hS hP hT hw _ _ a b _ _
        (NumsOk_mono cfg a _ _ (by omega) hna) (NumsOk_mono cfg b _ _ (by omega) hnb) l hl
  | cons line rest ih =>
    intro st hlenN hlines hst out hout l hl
    rw [processFrom] at hout
    cases hstep : stepLine cfg plainTheme st line with
    | error e => rw [hstep] at hout; cases hout
    | ok p =>
      cases p with
      | mk st1 out1 =>
        rw [hstep] at hout
        cases hrec : processFrom cfg plainTheme st1 rest with
        | error e =>
          simp only [hrec] at hout
          exact absurd hout (by simp)
        | ok out2 =>
          simp only [hrec, Except.ok.injEq] at hout
          subst hout
          have hline : lineOk cfg N line = true := hlines line (List.mem_cons_self _ _)
          have hstOk : StateOk cfg st (rest.length + 1) := by
            simpa using hst
          obtain ⟨hout1, hst1⟩ := stepLine_length cfg hS hP hT h4 hw N rest.length
            (by simp at hlenN; omega) st line hline hstOk st1 out1 hstep
          rcases List.mem_append.mp hl with hl | hl
          · exact hout1 l hl
          · exact ih st1 (by simp at hlenN; omega)
              (fun l2 hl2 => hlines l2 (List.mem_cons_of_mem _ hl2)) hst1 out2 hrec l hl

/-- C3 amended: the claimed exact-width invariant fails in general (see the
counterexample: an over-long Commit-state line is emitted at its own length),
but holds on every run in which the widths are consistent and the input is
benign: the screen is exactly two line-columns wide, the prefix column is at
least one character, the (unclamped) text width is non-negative, wrapping is
disabled, and every input line satisfies `lineOk` (it fits the screen,
recognized commit labels are followed by a space, installed file names fit
the banner, and parsed hunk starts render within `LINE_NUMBER_WIDTH` even
after advancing over the whole input).  Then every line emitted by a
successful run is exactly `SCREEN_WIDTH` characters (measured under the
identity theme, i.e. excluding color escapes). -/
theorem claim_C3_fixed_width_amended (cfg : Config) (input : List Str) (out : Lines)
    (hS : cfg.SCREEN_WIDTH = 2 * LINE_WIDTH cfg) (hP : 1 ≤ cfg.LINE_PREFIX_WIDTH)
    (hT : 0 ≤ LINE_TEXT_WIDTH cfg) (h4 : 4 ≤ cfg.SCREEN_WIDTH) (hw : cfg.WRAP_LINES = false)
    (hlines : ∀ l ∈ input, lineOk cfg input.length l = true)
    (hrun : processLines cfg plainTheme input = Except.ok out) :
    ∀ l ∈ out, l.length = cfg.SCREEN_WIDTH := by
  refine processFrom_length cfg hS hP hT h4 hw input.length input initialState le_rfl
    hlines ?_ out hrun
  refine ⟨by simp [initialState], by simp [initialState], ?_, ?_⟩
  · intro hcontra
    simp [initialState] at hcontra
  · intro _
    rfl

/-- C3 counterexample: in the Commit state, a line longer than `SCREEN_WIDTH`
whose first word is not a recognized label is emitted unchanged, so the run
produces a line wider than the screen. -/
theorem claim_C3_counterexample :
    processLines cfgA plainTheme [("this line is well over twenty columns!").toList] =
        Except.ok [("this line is well over twenty columns!").toList] ∧
      (("this line is well over twenty columns!").toList).length ≠ cfgA.SCREEN_WIDTH :=
  ⟨rfl, by decide⟩

theorem claim_C3_fixed_width_amended_witness :
    (("commit 12345        ").toList).length = cfgA.SCREEN_WIDTH :=
  claim_C3_fixed_width_amended cfgA inputA outputA (by decide) (by decide) (by decide)
    (by decide) rfl (by decide) rfl (("commit 12345        ").toList) (by decide)
